import Mathlib

/-!
# wharf: request authorization filter and legacy manifest conversion

A shallow embedding of `filters/auth.go` (`FilterAuth`, `getPermission`,
`isImageResource`, `checkOrgRepositoryPermission`) and of
`controllers/common.go` (`V2ErrorDescriptors`, `manifestsConvertV1`).

Conventions of the embedding:

* Go strings are Lean `String`s. `strings.Index` is only ever compared with
  `0` and `-1` in the source, and `strings.Split` is only called with the
  one-byte separators `"/"` and `":"`, so working on characters instead of
  bytes does not change any outcome.
* A runtime failure of the Go code (index out of range, failed type
  assertion) is the result `none` / `Res.panic`; it is never merged
  with a returned `error`.
* The collaborators of package `models` and `utils` are not part of the
  two files; they are parameters (`Stores`, `ConvertEnv`).
-/

namespace Wharf

/-! ## Go standard library helpers -/

/-- Index of the first occurrence of `substr` in `s` counted from `i`, or `-1`. -/
def indexFrom (substr : List Char) : List Char → Nat → Int
  | [], i => if substr.isPrefixOf [] then (i : Int) else -1
  | c :: cs, i => if substr.isPrefixOf (c :: cs) then (i : Int) else indexFrom substr cs (i + 1)

/-- Go `strings.Index(s, substr)`: first occurrence of `substr` in `s`, or `-1`. -/
def stringsIndex (s substr : String) : Int :=
  indexFrom substr.data s.data 0

/-- Worker of `stringsSplit` for a non-empty separator: `skip` characters of a
separator that has just been matched are still to be dropped, `cur` is the
current piece, reversed. -/
def splitGo (sep : List Char) : Nat → List Char → List Char → List String
  | _, cur, [] => [String.mk cur.reverse]
  | skip + 1, cur, _ :: cs => splitGo sep skip cur cs
  | 0, cur, c :: cs =>
    if sep.isPrefixOf (c :: cs) then
      String.mk cur.reverse :: splitGo sep (sep.length - 1) [] cs
    else
      splitGo sep 0 (c :: cur) cs

/-- Go `strings.Split(s, sep)`: the pieces of `s` between the occurrences of
`sep`; one piece (`s` itself) when `sep` does not occur; with an empty `sep`
the string is split after each character. -/
def stringsSplit (s sep : String) : List String :=
  if sep.data.isEmpty then s.data.map String.singleton
  else splitGo sep.data 0 [] s.data

/-! ## Data model read by the authorization filter (package `models`) -/

/-- The fields of `models.User` that the filter reads. -/
structure User where
  Username : String
  Organizations : List String
  Teams : List String
  deriving DecidableEq, Repr

/-- The field of `models.Organization` that the filter reads. -/
structure Organization where
  UUID : String
  deriving DecidableEq, Repr

/-- The field of `models.Repository` that the filter reads. -/
structure Repository where
  UUID : String
  deriving DecidableEq, Repr

/-- The field of `models.Team` that the filter reads. -/
structure Team where
  TeamPrivileges : List String
  deriving DecidableEq, Repr

/-- The fields of `models.Privilege` that the filter reads. -/
structure Privilege where
  Privilege : Bool
  Repository : String
  deriving DecidableEq, Repr

/-- The collaborators of the filter. `OrgHas` and `RepoHas` give the `has`
flag together with the record the receiver holds afterwards; `TeamGet`,
`PrivilegeGet`, `UserGet` and `DecodeBasicAuth` give `none` where the Go
method returns a non-nil error. -/
structure Stores where
  OrgHas : String → Bool × Organization
  RepoHas : String → String → Bool × Repository
  TeamGet : String → Option Team
  PrivilegeGet : String → Option Privilege
  UserGet : String → String → Option User
  DecodeBasicAuth : String → Option (String × String)

/-- The constant `PERMISSION_WRITE = iota`. -/
def PERMISSION_WRITE : Int := 0

/-- The constant `PERMISSION_READ`, the second `iota`. -/
def PERMISSION_READ : Int := 1

/-! ## `controllers/common.go`: error descriptors -/

/-- The constant `APIV2ErrorCodeUnauthorized`, the second `iota` of its block. -/
def APIV2ErrorCodeUnauthorized : Nat := 1

/-- The struct `V2ErrorDescriptor`. -/
structure V2ErrorDescriptor where
  Code : Nat
  Value : String
  Message : String
  Description : String
  deriving DecidableEq, Repr

/-- The table `V2ErrorDescriptors`. -/
def V2ErrorDescriptors : List V2ErrorDescriptor :=
  [ { Code := 0, Value := "UNKNOWN", Message := "unknown error",
      Description := "Generic error returned when the error does not have an\n    API classification." },
    { Code := APIV2ErrorCodeUnauthorized, Value := "UNAUTHORIZED",
      Message := "access to the requested resource is not authorized",
      Description := "The access controller denied access for the operation on\n    a resource. Often this will be accompanied by a 401 Unauthorized\n    response status." },
    { Code := 2, Value := "DIGEST_INVALID",
      Message := "provided digest did not match uploaded content",
      Description := "When a blob is uploaded, the registry will check that\n    the content matches the digest provided by the client. The error may\n    include a detail structure with the key \"digest\", including the\n    invalid digest string. This error may also be returned when a manifest\n    includes an invalid layer digest." },
    { Code := 3, Value := "SIZE_INVALID",
      Message := "provided length did not match content length",
      Description := "When a layer is uploaded, the provided size will be\n    checked against the uploaded content. If they do not match, this error\n    will be returned." },
    { Code := 4, Value := "NAME_INVALID", Message := "manifest name did not match URI",
      Description := "During a manifest upload, if the name in the manifest\n    does not match the uri name, this error will be returned." },
    { Code := 5, Value := "TAG_INVALID", Message := "manifest tag did not match URI",
      Description := "During a manifest upload, if the tag in the manifest\n    does not match the uri tag, this error will be returned." },
    { Code := 6, Value := "NAME_UNKNOWN", Message := "repository name not known to registry",
      Description := "This is returned if the name used during an operation is\n    unknown to the registry." },
    { Code := 7, Value := "MANIFEST_UNKNOWN", Message := "manifest unknown",
      Description := "This error is returned when the manifest, identified by\n    name and tag is unknown to the repository." },
    { Code := 8, Value := "MANIFEST_INVALID", Message := "manifest invalid",
      Description := "During upload, manifests undergo several checks ensuring\n    validity. If those checks fail, this error may be returned, unless a\n    more specific error is included. The detail will contain information\n    the failed validation." },
    { Code := 9, Value := "MANIFEST_UNVERIFIED",
      Message := "manifest failed signature verification",
      Description := "During manifest upload, if the manifest fails signature\n    verification, this error will be returned." },
    { Code := 10, Value := "BLOB_UNKNOWN", Message := "blob unknown to registry",
      Description := "This error may be returned when a blob is unknown to the\n    registry in a specified repository. This can be returned with a\n    standard get or if a manifest references an unknown layer during\n    upload." },
    { Code := 11, Value := "BLOB_UPLOAD_UNKNOWN", Message := "blob upload unknown to registry",
      Description := "If a blob upload has been cancelled or was never \n\t\tstarted, this error code may be returned." } ]

/-- Modelled from the spec: the table `modules.ErrorDescriptors` and the
constant `modules.APIErrorCodeUnauthorized` that `FilterAuth` indexes it with
are not in the two files. Section 6 of the specification fixes the error
vocabulary to the one of `V2ErrorDescriptors`; this is the entry
`modules.ErrorDescriptors[modules.APIErrorCodeUnauthorized]`. -/
def ErrorDescriptorUnauthorized : Option V2ErrorDescriptor :=
  V2ErrorDescriptors[APIV2ErrorCodeUnauthorized]?

/-! ## `filters/auth.go` -/

/-- Go `getPermission`: the two map lookups, then the default. -/
def getPermission (method : String) : Int :=
  let write : List (String × String) := [("POST", "POST"), ("PUT", "PUT"), ("DELETE", "DELETE")]
  let read : List (String × String) := [("HEAD", "HEAD"), ("GET", "GET")]
  if (write.lookup method).isSome == true then PERMISSION_WRITE
  else if (read.lookup method).isSome == true then PERMISSION_READ
  else PERMISSION_READ

/-- Go `isImageResource`. -/
def isImageResource (url : String) : Bool :=
  if stringsIndex url "images" == -1 then false
  else if stringsIndex url "images" > 0 then true
  else false

/-- The `//Loop Team Privileges` loop of `checkOrgRepositoryPermission`:
`some b` when the loop executes `return b`, `none` when it runs to its end. -/
def loopTeamPrivileges (st : Stores) (repo : Repository) (permission : Int) :
    List String → Option Bool
  | [] => none
  | v :: vs =>
    match st.PrivilegeGet v with
    | none => some false
    | some p =>
      if p.Repository == repo.UUID then
        if p.Privilege == true && permission == PERMISSION_WRITE then some true
        else if p.Privilege == false && permission == PERMISSION_READ then some true
        else some false
      else loopTeamPrivileges st repo permission vs

/-- The `//Loop Team` loop of `checkOrgRepositoryPermission` with the final
`return false`. -/
def loopTeam (st : Stores) (repo : Repository) (permission : Int) : List String → Bool
  | [] => false
  | k :: ks =>
    match st.TeamGet k with
    | none => false
    | some team =>
      match loopTeamPrivileges st repo permission team.TeamPrivileges with
      | some b => b
      | none => loopTeam st repo permission ks

/-- Go `checkOrgRepositoryPermission`. -/
def checkOrgRepositoryPermission (st : Stores) (user : User)
    (namespace_ repository : String) (permission : Int) : Bool :=
  let org := st.OrgHas namespace_
  if org.1 == false then false
  else
    let owner := user.Organizations.foldl
      (fun owner k => if org.2.UUID == k then true else owner) false
    let repo := st.RepoHas namespace_ repository
    if repo.1 == false then
      if owner == true then true else false
    else
      loopTeam st repo.2 permission user.Teams

/-- The part of the beego context that `FilterAuth` reads and writes:
`ctx.Request.URL.String()`, `ctx.Input.Params[":splat"]`,
`ctx.Input.Method()`, `ctx.Input.Header("Authorization")` (empty when the
header is absent), and the status and body of the output (`none` while
unset). The body is kept as the value handed to `json.Marshal`. -/
structure Context where
  URL : String
  Splat : String
  Method : String
  Authorization : String
  Status : Option Nat
  Body : Option (List (String × List V2ErrorDescriptor))
  deriving DecidableEq, Repr

/-- The constant `http.StatusNotFound`. -/
def StatusNotFound : Nat := 404

/-- The code of `FilterAuth` after the label `AUTH`; `none` is a runtime
failure of the table lookup. -/
def labelAUTH (ctx : Context) (auth : Bool) : Option Context :=
  if auth == false then
    match ErrorDescriptorUnauthorized with
    | none => none
    | some d =>
      some { ctx with Status := some StatusNotFound, Body := some [("errors", [d])] }
  else some ctx

/-- The two `if` statements of `FilterAuth` that set `namespace` and
`repository` from the `:splat` parameter; `none` is the runtime failure of
an index out of range. Both variables start as the empty string. -/
def extractNames (ctx : Context) : Option (String × String) :=
  let v1 : Option (String × String) :=
    if stringsIndex ctx.URL "v1" > 0 then
      match (stringsSplit ctx.Splat "/")[1]?, (stringsSplit ctx.Splat "/")[2]? with
      | some n, some r => some (n, r)
      | _, _ => none
    else some ("", "")
  match v1 with
  | none => none
  | some (namespace1, repository1) =>
    if stringsIndex ctx.URL "v2" > 0 then
      match (stringsSplit ctx.Splat "/")[0]?, (stringsSplit ctx.Splat "/")[1]? with
      | some n, some r => some (n, r)
      | _, _ => none
    else some (namespace1, repository1)

/-- Go `FilterAuth`; `none` is a runtime failure (index out of range). -/
def FilterAuth (st : Stores) (ctx : Context) : Option Context :=
  if stringsIndex ctx.URL "_ping" > 0 then labelAUTH ctx true
  else
    match extractNames ctx with
    | none => none
    | some (namespace_, repository) =>
      let permission := getPermission ctx.Method
      if ctx.Authorization.length == 0 || stringsIndex ctx.Authorization "Basic" == -1 then
        labelAUTH ctx false
      else
        match st.DecodeBasicAuth ctx.Authorization with
        | none => labelAUTH ctx false
        | some (username, passwd) =>
          match st.UserGet username passwd with
          | none => labelAUTH ctx false
          | some user =>
            if isImageResource ctx.URL == true then labelAUTH ctx true
            else if user.Username != namespace_ then
              labelAUTH ctx (checkOrgRepositoryPermission st user namespace_ repository permission)
            else labelAUTH ctx true

/-! ## `controllers/common.go`: `manifestsConvertV1` -/

/-- A Go `error` value; only its identity matters. -/
abbrev Error := String

/-- The values `json.Unmarshal` stores in an `interface{}`: `nil`, `bool`,
`float64`, `string`, `[]interface{}` and `map[string]interface{}`. The only
use the code makes of a `float64` is the conversion `int64(...)`, and a
number carries the integer that conversion gives. -/
inductive JValue where
  | null : JValue
  | bool (b : Bool) : JValue
  | number (n : Int) : JValue
  | string (s : String) : JValue
  | array (l : List JValue) : JValue
  | object (m : List (String × JValue)) : JValue

/-- Go map indexing `m[key]` on a `map[string]interface{}`: `nil` for an
absent key. -/
def mapIndex (m : List (String × JValue)) (key : String) : JValue :=
  (m.lookup key).getD JValue.null

/-- Go map assignment `i[key] = val` on a `map[string]string`. -/
def mapSet (i : List (String × String)) (key val : String) : List (String × String) :=
  i.filter (fun kv => kv.1 != key) ++ [(key, val)]

/-- The type assertion `x.(string)`; `none` is the runtime failure. -/
def assertString : JValue → Option String
  | JValue.string s => some s
  | _ => none

/-- The type assertion `x.([]interface{})`. -/
def assertSlice : JValue → Option (List JValue)
  | JValue.array l => some l
  | _ => none

/-- The type assertion `x.(map[string]interface{})`. -/
def assertMap : JValue → Option (List (String × JValue))
  | JValue.object m => some m
  | _ => none

/-- The type assertion `x.(float64)` followed by `int64(...)`. -/
def assertFloat64 : JValue → Option Int
  | JValue.number n => some n
  | _ => none

/-- The store writes that `manifestsConvertV1` issues, with their arguments. -/
inductive Write where
  | PutJSONFromManifests (i : List (String × String)) (namespace_ repository : String) : Write
  | PutTagFromManifests (image namespace_ repository tag data : String) : Write
  | PutJSON (image json : String) (version : Int) : Write
  | PutLayer (image layerfile : String) (lock : Bool) (size : Int) : Write
  | PutChecksum (image checksum : String) (loaded : Bool) (payload : String) : Write
  | PutAncestry (image : String) : Write
  deriving DecidableEq, Repr

/-- What `manifestsConvertV1` depends on outside the file: `json.Unmarshal`
into a `map[string]interface{}`, the configuration value
`beego.AppConfig.String("docker::BasePath")`, the constant
`models.APIVERSION_V2`, and the stores of package `models`. `Store t w` is
the error (if any) that the write `w` returns when the writes `t` have been
issued before it in this call. -/
structure ConvertEnv where
  Unmarshal : String → Except Error (List (String × JValue))
  BasePath : String
  APIVERSION_V2 : Int
  Store : List Write → Write → Option Error

/-- How a piece of Go code ends: it goes on with a value, it executes
`return err`, or it fails at run time. -/
inductive Res (α : Type) where
  | ok (a : α) : Res α
  | err (e : Error) : Res α
  | panic : Res α
  deriving DecidableEq, Repr

/-- A piece of `manifestsConvertV1`: given the writes issued so far it gives
the writes it issues itself, in order, and how it ends. -/
def Conv (α : Type) : Type := List Write → List Write × Res α

/-- Sequencing: the second piece runs only when the first goes on. -/
def Conv.bind {α β : Type} (m : Conv α) (f : α → Conv β) : Conv β := fun t =>
  match m t with
  | (ws, Res.ok a) => ((ws ++ (f a (t ++ ws)).1), (f a (t ++ ws)).2)
  | (ws, Res.err e) => (ws, Res.err e)
  | (ws, Res.panic) => (ws, Res.panic)

instance : Monad Conv where
  pure a := fun _ => ([], Res.ok a)
  bind := Conv.bind

/-- An operation that fails at run time on `none`. -/
def Conv.assert {α : Type} : Option α → Conv α
  | some a => fun _ => ([], Res.ok a)
  | none => fun _ => ([], Res.panic)

/-- The pattern `if err := ...; err != nil { return err }` around a pure call. -/
def Conv.check {α : Type} : Except Error α → Conv α
  | Except.ok a => fun _ => ([], Res.ok a)
  | Except.error e => fun _ => ([], Res.err e)

/-- The pattern `if err := store.Put...(...); err != nil { return err }`. -/
def Conv.call (env : ConvertEnv) (w : Write) : Conv Unit := fun t =>
  match env.Store t w with
  | none => ([w], Res.ok ())
  | some e => ([w], Res.err e)

/-- The body of the `for` loop of `manifestsConvertV1` at index `k`. -/
def loopBody (env : ConvertEnv) (manifest : List (String × JValue)) (tag : JValue)
    (namespace_ repository : String) (k : Nat) : Conv Unit := do
  let history ← Conv.assert (assertSlice (mapIndex manifest "history"))
  let v ← Conv.assert history[k]?
  let vmap ← Conv.assert (assertMap v)
  let data ← Conv.assert (assertString (mapIndex vmap "v1Compatibility"))
  let image ← Conv.check (env.Unmarshal data)
  let i0 : List (String × String) := []
  let i1 ← if k == 0 then do
      let t ← Conv.assert (assertString tag)
      pure (mapSet i0 "Tag" t)
    else pure i0
  let id ← Conv.assert (assertString (mapIndex image "id"))
  let i := mapSet i1 "id" id
  Conv.call env (Write.PutJSONFromManifests i namespace_ repository)
  if k == 0 then do
    let id0 ← Conv.assert (assertString (mapIndex image "id"))
    let t ← Conv.assert (assertString tag)
    Conv.call env (Write.PutTagFromManifests id0 namespace_ repository t data)
  else pure ()
  let fsLayers ← Conv.assert (assertSlice (mapIndex manifest "fsLayers"))
  let layer ← Conv.assert fsLayers[k]?
  let layermap ← Conv.assert (assertMap layer)
  let tarsum ← Conv.assert (assertString (mapIndex layermap "blobSum"))
  let sha256 ← Conv.assert (stringsSplit tarsum ":")[1]?
  let id1 ← Conv.assert (assertString (mapIndex image "id"))
  let json ← Conv.assert (assertString (mapIndex vmap "v1Compatibility"))
  Conv.call env (Write.PutJSON id1 json env.APIVERSION_V2)
  let basePath := env.BasePath
  let layerfile := basePath ++ "/uuid/" ++ sha256 ++ "/layer"
  let id2 ← Conv.assert (assertString (mapIndex image "id"))
  let size ← Conv.assert (assertFloat64 (mapIndex image "Size"))
  Conv.call env (Write.PutLayer id2 layerfile true size)
  let id3 ← Conv.assert (assertString (mapIndex image "id"))
  Conv.call env (Write.PutChecksum id3 sha256 true "")
  let id4 ← Conv.assert (assertString (mapIndex image "id"))
  Conv.call env (Write.PutAncestry id4)

/-- The `for` loop of `manifestsConvertV1` from the counter value `k` on:
`for ; k > 0; k-- { ... }`. The counter starts at `len(history) - 1`; for an
empty history that is `-1` in Go and `0` here, and the loop ends at once in
both. -/
def loopFrom (env : ConvertEnv) (manifest : List (String × JValue)) (tag : JValue)
    (namespace_ repository : String) : Nat → Conv Unit
  | 0 => pure ()
  | k + 1 => do
    loopBody env manifest tag namespace_ repository (k + 1)
    loopFrom env manifest tag namespace_ repository k

/-- Go `manifestsConvertV1` as a piece of code. -/
def manifestsConvertV1Conv (env : ConvertEnv) (data : String) : Conv Unit := do
  let manifest ← Conv.check (env.Unmarshal data)
  let tag := mapIndex manifest "tag"
  let name ← Conv.assert (assertString (mapIndex manifest "name"))
  let namespace_ ← Conv.assert (stringsSplit name "/")[0]?
  let name2 ← Conv.assert (assertString (mapIndex manifest "name"))
  let repository ← Conv.assert (stringsSplit name2 "/")[0]?
  let history ← Conv.assert (assertSlice (mapIndex manifest "history"))
  loopFrom env manifest tag namespace_ repository (history.length - 1)

/-- Go `manifestsConvertV1`: the writes issued, in order, and how the call
ends (`Res.ok ()` is `return nil`). -/
def manifestsConvertV1 (env : ConvertEnv) (data : String) : List Write × Res Unit :=
  manifestsConvertV1Conv env data []

/-! ## Example data -/

/-- Example stores: organization `acme` (`org-1`) with repository `acme/app`
(`repo-1`); team `t1` holds, in this order, a write grant on another
repository, a write grant on `repo-1` and a read-only grant on `repo-1`;
team `t2` holds the read-only grant alone. -/
def exStores : Stores where
  OrgHas := fun n => if n = "acme" then (true, ⟨"org-1"⟩) else (false, ⟨""⟩)
  RepoHas := fun n r => if n = "acme" ∧ r = "app" then (true, ⟨"repo-1"⟩) else (false, ⟨""⟩)
  TeamGet := fun k =>
    if k = "t1" then some ⟨["p0", "pw", "pr"]⟩
    else if k = "t2" then some ⟨["pr"]⟩
    else none
  PrivilegeGet := fun v =>
    if v = "p0" then some ⟨true, "repo-0"⟩
    else if v = "pw" then some ⟨true, "repo-1"⟩
    else if v = "pr" then some ⟨false, "repo-1"⟩
    else none
  UserGet := fun u p =>
    if u = "bob" ∧ p = "secret" then some ⟨"bob", ["org-1"], ["t1", "t2"]⟩
    else none
  DecodeBasicAuth := fun h =>
    if h = "Basic Ym9iOnNlY3JldA==" then some ("bob", "secret")
    else if h = "Basic bWFsOmJhZA==" then some ("mal", "bad")
    else none

/-- Example user: owner of `org-1`, member of the teams `t1` and `t2`. -/
def exUser : User := ⟨"bob", ["org-1"], ["t1", "t2"]⟩

/-- Example request: the liveness check without an `Authorization` header. -/
def exPing : Context := ⟨"/v1/_ping", "", "GET", "", none, none⟩

/-- Example request: a legacy image sub-resource whose header uses the basic
scheme and decodes, for a user the user store does not know. -/
def exImage : Context :=
  ⟨"/v1/images/abc/json", "images/abc/json", "GET", "Basic bWFsOmJhZA==", none, none⟩

/-- Example request: `bob` pushes to the namespace `bob`. -/
def exOwn : Context :=
  ⟨"/v1/repositories/bob/app/", "repositories/bob/app/", "PUT", "Basic Ym9iOnNlY3JldA==",
    none, none⟩

/-- Example request: a push to `acme/app` without an `Authorization` header. -/
def exNoHeader : Context :=
  ⟨"/v1/repositories/acme/app/", "repositories/acme/app/", "PUT", "", none, none⟩

/-- Example request: `bob` reads a legacy image sub-resource. -/
def exImageBob : Context :=
  ⟨"/v1/images/abc/json", "images/abc/json", "GET", "Basic Ym9iOnNlY3JldA==", none, none⟩

/-- The scenario manifest of the specification, as JSON text. -/
def exManifestText : String :=
  "\x7b\"name\":\"alice/app\",\"tag\":\"latest\",\"history\":[\x7b\"v1Compatibility\":\"\x7b\\\"id\\\":\\\"img0\\\",\\\"Size\\\":10\x7d\"\x7d,\x7b\"v1Compatibility\":\"\x7b\\\"id\\\":\\\"img1\\\",\\\"Size\\\":20\x7d\"\x7d],\"fsLayers\":[\x7b\"blobSum\":\"sha256:aaa\"\x7d,\x7b\"blobSum\":\"sha256:bbb\"\x7d]\x7d"

/-- The `v1Compatibility` string of `history[0]` in the scenario. -/
def exBlob0 : String := "\x7b\"id\":\"img0\",\"Size\":10\x7d"

/-- The `v1Compatibility` string of `history[1]` in the scenario. -/
def exBlob1 : String := "\x7b\"id\":\"img1\",\"Size\":20\x7d"

/-- What `json.Unmarshal` gives on the three JSON texts of the scenario; any
other text is taken as malformed. -/
def exUnmarshal : String → Except Error (List (String × JValue)) := fun s =>
  if s = exManifestText then
    Except.ok
      [("name", JValue.string "alice/app"), ("tag", JValue.string "latest"),
       ("history", JValue.array
          [JValue.object [("v1Compatibility", JValue.string exBlob0)],
           JValue.object [("v1Compatibility", JValue.string exBlob1)]]),
       ("fsLayers", JValue.array
          [JValue.object [("blobSum", JValue.string "sha256:aaa")],
           JValue.object [("blobSum", JValue.string "sha256:bbb")]])]
  else if s = exBlob0 then Except.ok [("id", JValue.string "img0"), ("Size", JValue.number 10)]
  else if s = exBlob1 then Except.ok [("id", JValue.string "img1"), ("Size", JValue.number 20)]
  else Except.error "invalid character"

/-- The scenario environment: every store accepts every write. -/
def exEnv : ConvertEnv := ⟨exUnmarshal, "/data", 2, fun _ _ => none⟩

/-- The scenario environment with an image store that rejects `PutLayer`. -/
def exEnvFail : ConvertEnv :=
  ⟨exUnmarshal, "/data", 2, fun _ w =>
    match w with
    | Write.PutLayer _ _ _ _ => some "disk full"
    | _ => none⟩

/-- The Go method a write is a call of. -/
def Write.method : Write → String
  | Write.PutJSONFromManifests _ _ _ => "PutJSONFromManifests"
  | Write.PutTagFromManifests _ _ _ _ _ => "PutTagFromManifests"
  | Write.PutJSON _ _ _ => "PutJSON"
  | Write.PutLayer _ _ _ _ => "PutLayer"
  | Write.PutChecksum _ _ _ _ => "PutChecksum"
  | Write.PutAncestry _ => "PutAncestry"

/-! ## Vocabulary of the proofs about store failures -/

/-- Every write of `ws`, issued after `t`, is accepted by the stores `S`. -/
def accepted (S : List Write → Write → Option Error) : List Write → List Write → Prop
  | _, [] => True
  | t, w :: ws => S t w = none ∧ accepted S (t ++ [w]) ws

/-- How a piece of code run against the stores `S` (`mS`) relates to the same
piece run against stores that accept every write (`mA`): either `S` accepts
every write and the two runs agree, or the run against `S` ends with the first
write `S` rejects, returning the error of that write. -/
def Rel {α : Type} (S : List Write → Write → Option Error) (mS mA : Conv α) : Prop :=
  ∀ t, (accepted S t (mS t).1 ∧ mS t = mA t) ∨
    (∃ pre w e, (mS t).1 = pre ++ [w] ∧ accepted S t pre ∧ S (t ++ pre) w = some e ∧
      (mS t).2 = Res.err e ∧ (pre ++ [w]) <+: (mA t).1)

/-- No write of the piece of code `m` is a tag binding. -/
def noTag {α : Type} (m : Conv α) : Prop :=
  ∀ t, ∀ w ∈ (m t).1, w.method ≠ "PutTagFromManifests"

/-! ## Further example data -/

/-- Example stores: those of `exStores` with one more team, `t3`, whose first
privilege identifier does not resolve and whose second is the read-only grant
on `repo-1`. -/
def exStores2 : Stores :=
  { exStores with
    TeamGet := fun k => if k = "t3" then some ⟨["px", "pr"]⟩ else exStores.TeamGet k }

/-- Example user: member of a team that does not resolve (`tx`), then of `t2`. -/
def exUserLost : User := ⟨"eve", ["org-1"], ["tx", "t2"]⟩

/-- Example user: `bob` without any organization reference. -/
def exUserNoOrg : User := ⟨"bob", [], ["t1", "t2"]⟩

/-- Example user: owner of `org-1` and member of no team. -/
def exOwnerNoTeam : User := ⟨"olga", ["org-1"], []⟩

/-- Example request: `bob` pushes to the repository `v2app` of the namespace
`bob` through a version-1 URL. -/
def exV1V2 : Context :=
  ⟨"/v1/repositories/bob/v2app/", "repositories/bob/v2app/", "PUT", "Basic Ym9iOnNlY3JldA==",
    none, none⟩

/-- Example request: `bob` pushes to `acme/app` through a version-1 URL. -/
def exV1Acme : Context :=
  ⟨"/v1/repositories/acme/app/", "repositories/acme/app/", "PUT", "Basic Ym9iOnNlY3JldA==",
    none, none⟩

/-- Example request: `bob` reads a manifest of `acme/app` through a version-2 URL. -/
def exV2Acme : Context :=
  ⟨"/v2/acme/app/manifests/latest", "acme/app/manifests/latest", "GET",
    "Basic Ym9iOnNlY3JldA==", none, none⟩

/-! ## Vocabulary of the statements about the write sequence -/

/-- The namespace and repository arguments of a repository-store write;
`none` for an image-store write. -/
def repoArgs : Write → Option (String × String)
  | Write.PutJSONFromManifests _ n r => some (n, r)
  | Write.PutTagFromManifests _ n r _ _ => some (n, r)
  | _ => none

/-- Every write of the piece of code `m` satisfies `P`. -/
def allWrites {α : Type} (P : Write → Prop) (m : Conv α) : Prop :=
  ∀ t, ∀ w ∈ (m t).1, P w

/-- The five writes for one history index, as the specification lists them:
the legacy JSON keyed by the image id, the image metadata (the raw
`v1Compatibility` string), the layer reference (synthesized path, external,
declared size), the checksum (hash, verified, no payload) and the ancestry. -/
def indexWrites (env : ConvertEnv) (namespace_ repository id blob sha : String) (size : Int) :
    List Write :=
  [Write.PutJSONFromManifests [("id", id)] namespace_ repository,
   Write.PutJSON id blob env.APIVERSION_V2,
   Write.PutLayer id (env.BasePath ++ "/uuid/" ++ sha ++ "/layer") true size,
   Write.PutChecksum id sha true "",
   Write.PutAncestry id]

/-- The entries at index `k` are well formed, with these values:
`history[k]` is an object whose `v1Compatibility` is the string `blob`, which
decodes to an object with the string `id` and the number `Size`;
`fsLayers[k]` is an object whose `blobSum` is a string with `sha` as its
second `:`-separated piece. -/
def WellFormedEntry (env : ConvertEnv) (manifest : List (String × JValue)) (k : Nat)
    (blob id sha : String) (size : Int) : Prop :=
  ∃ (history fsLayers : List JValue) (vmap image lmap : List (String × JValue))
    (tarsum : String),
    mapIndex manifest "history" = JValue.array history ∧
    history[k]? = some (JValue.object vmap) ∧
    mapIndex vmap "v1Compatibility" = JValue.string blob ∧
    env.Unmarshal blob = Except.ok image ∧
    mapIndex image "id" = JValue.string id ∧
    mapIndex image "Size" = JValue.number size ∧
    mapIndex manifest "fsLayers" = JValue.array fsLayers ∧
    fsLayers[k]? = some (JValue.object lmap) ∧
    mapIndex lmap "blobSum" = JValue.string tarsum ∧
    (stringsSplit tarsum ":")[1]? = some sha

/-- The entries at index `k` can be processed without a runtime failure:
`history[k]` is an object with a string `v1Compatibility` that decodes to an
object with a string `id` and a numeric `Size`, and `fsLayers[k]` is an
object with a string `blobSum` that contains a `:`. -/
def SafeEntry (env : ConvertEnv) (manifest : List (String × JValue)) (k : Nat) : Prop :=
  ∃ (history fsLayers : List JValue) (vmap image lmap : List (String × JValue))
    (blob id tarsum : String) (size : Int),
    mapIndex manifest "history" = JValue.array history ∧
    history[k]? = some (JValue.object vmap) ∧
    mapIndex vmap "v1Compatibility" = JValue.string blob ∧
    env.Unmarshal blob = Except.ok image ∧
    mapIndex image "id" = JValue.string id ∧
    mapIndex image "Size" = JValue.number size ∧
    mapIndex manifest "fsLayers" = JValue.array fsLayers ∧
    fsLayers[k]? = some (JValue.object lmap) ∧
    mapIndex lmap "blobSum" = JValue.string tarsum ∧
    ':' ∈ tarsum.data

/-- A decoder for a manifest without `tag`, whose `history[0]` and
`fsLayers[0]` are `null`: the text `bare` decodes to that manifest, the
`v1Compatibility` text of the scenario's `img1` decodes as in the scenario. -/
def exUnmarshalBare : String → Except Error (List (String × JValue)) := fun s =>
  if s = "bare" then
    Except.ok
      [("name", JValue.string "alice/app"),
       ("history", JValue.array
          [JValue.null, JValue.object [("v1Compatibility", JValue.string exBlob1)]]),
       ("fsLayers", JValue.array
          [JValue.null, JValue.object [("blobSum", JValue.string "sha256:bbb")]])]
  else if s = exBlob1 then Except.ok [("id", JValue.string "img1"), ("Size", JValue.number 20)]
  else Except.error "invalid character"

/-- The environment of `exUnmarshalBare`, with an image store that rejects
`PutChecksum`. -/
def exEnvBare : ConvertEnv :=
  ⟨exUnmarshalBare, "/data", 2, fun _ w =>
    match w with
    | Write.PutChecksum _ _ _ _ => some "read-only store"
    | _ => none⟩

/-- A decoder for a manifest with three history entries whose
`v1Compatibility` at index `1` is not JSON: the text `broken` decodes to that
manifest, the `v1Compatibility` texts of the scenario decode as in the
scenario, and any other text is malformed. -/
def exUnmarshalBroken : String → Except Error (List (String × JValue)) := fun s =>
  if s = "broken" then
    Except.ok
      [("name", JValue.string "alice/app"), ("tag", JValue.string "latest"),
       ("history", JValue.array
          [JValue.object [("v1Compatibility", JValue.string exBlob0)],
           JValue.object [("v1Compatibility", JValue.string "oops")],
           JValue.object [("v1Compatibility", JValue.string exBlob1)]]),
       ("fsLayers", JValue.array
          [JValue.object [("blobSum", JValue.string "sha256:aaa")],
           JValue.object [("blobSum", JValue.string "sha256:ccc")],
           JValue.object [("blobSum", JValue.string "sha256:bbb")]])]
  else if s = exBlob0 then Except.ok [("id", JValue.string "img0"), ("Size", JValue.number 10)]
  else if s = exBlob1 then Except.ok [("id", JValue.string "img1"), ("Size", JValue.number 20)]
  else Except.error "invalid character"

/-- The environment of `exUnmarshalBroken`; every store accepts every write. -/
def exEnvBroken : ConvertEnv := ⟨exUnmarshalBroken, "/data", 2, fun _ _ => none⟩

/-- Example stores: those of `exStores` with one more user, whose name is
`repositories`, owner of nothing and member of no team. -/
def exStoresSquat : Stores :=
  { exStores with
    UserGet := fun u p =>
      if u = "repositories" ∧ p = "pw" then some ⟨"repositories", [], []⟩
      else exStores.UserGet u p
    DecodeBasicAuth := fun h =>
      if h = "Basic cmVwb3NpdG9yaWVzOnB3" then some ("repositories", "pw")
      else exStores.DecodeBasicAuth h }

/-- Example request: the user `repositories` pushes to the repository `v2app`
of the namespace `acme` through a version-1 URL. -/
def exV1Squat : Context :=
  ⟨"/v1/repositories/acme/v2app/", "repositories/acme/v2app/", "PUT",
    "Basic cmVwb3NpdG9yaWVzOnB3", none, none⟩

/-! ## `checkOrgRepositoryPermission` -/

/-- The owner flag computed by the `//Check Owner` loop is membership. -/
theorem owner_foldl (u : String) (l : List String) (b : Bool) :
    l.foldl (fun owner k => if u == k then true else owner) b = (b || decide (u ∈ l)) := by
  induction l generalizing b with
  | nil => simp
  | cons k ks ih =>
    rw [List.foldl_cons, ih]
    by_cases h : u = k
    · subst h; simp
    · have h2 : (u == k) = false := by simpa using h
      simp [h2, h]

/-- Privileges that resolve and belong to other repositories are skipped. -/
theorem loopTeamPrivileges_skip (st : Stores) (repo : Repository) (permission : Int)
    (ps rest : List String)
    (h : ∀ q ∈ ps, ∃ pq, st.PrivilegeGet q = some pq ∧ pq.Repository ≠ repo.UUID) :
    loopTeamPrivileges st repo permission (ps ++ rest)
      = loopTeamPrivileges st repo permission rest := by
  induction ps with
  | nil => rfl
  | cons q qs ih =>
    obtain ⟨pq, hq, hne⟩ := h q (List.mem_cons_self _ _)
    have hne2 : (pq.Repository == repo.UUID) = false := by simpa using hne
    rw [List.cons_append, loopTeamPrivileges, hq]
    simp only [hne2]
    exact ih (fun q2 hq2 => h q2 (List.mem_cons_of_mem _ hq2))

/-- Teams that resolve and hold no privilege for the repository are skipped. -/
theorem loopTeam_skip (st : Stores) (repo : Repository) (permission : Int)
    (ts rest : List String)
    (h : ∀ t ∈ ts, ∃ tm, st.TeamGet t = some tm ∧
      ∀ q ∈ tm.TeamPrivileges, ∃ pq, st.PrivilegeGet q = some pq ∧ pq.Repository ≠ repo.UUID) :
    loopTeam st repo permission (ts ++ rest) = loopTeam st repo permission rest := by
  induction ts with
  | nil => rfl
  | cons t ts ih =>
    obtain ⟨tm, ht, hps⟩ := h t (List.mem_cons_self _ _)
    have h0 := loopTeamPrivileges_skip st repo permission tm.TeamPrivileges [] hps
    rw [List.append_nil] at h0
    rw [List.cons_append, loopTeam, ht]
    simp only [h0, loopTeamPrivileges]
    exact ih (fun t2 ht2 => h t2 (List.mem_cons_of_mem _ ht2))

/-- The team scan stops at the first privilege for the repository and returns
what that privilege gives. -/
theorem loopTeam_first_match (st : Stores) (repo : Repository) (permission : Int)
    (ts₁ ts₂ ps₁ ps₂ : List String) (k v : String) (team : Team) (p : Privilege)
    (hts : ∀ t ∈ ts₁, ∃ tm, st.TeamGet t = some tm ∧
      ∀ q ∈ tm.TeamPrivileges, ∃ pq, st.PrivilegeGet q = some pq ∧ pq.Repository ≠ repo.UUID)
    (hk : st.TeamGet k = some team) (hteam : team.TeamPrivileges = ps₁ ++ v :: ps₂)
    (hps : ∀ q ∈ ps₁, ∃ pq, st.PrivilegeGet q = some pq ∧ pq.Repository ≠ repo.UUID)
    (hv : st.PrivilegeGet v = some p) (hp : p.Repository = repo.UUID) :
    loopTeam st repo permission (ts₁ ++ k :: ts₂)
      = ((p.Privilege && permission == PERMISSION_WRITE)
          || (!p.Privilege && permission == PERMISSION_READ)) := by
  rw [loopTeam_skip st repo permission ts₁ _ hts, loopTeam, hk]
  simp only [hteam]
  rw [loopTeamPrivileges_skip st repo permission ps₁ _ hps, loopTeamPrivileges, hv]
  have hp2 : (p.Repository == repo.UUID) = true := by simpa using hp
  simp only [hp2]
  cases p.Privilege <;> cases hperm1 : (permission == PERMISSION_WRITE) <;>
    cases hperm2 : (permission == PERMISSION_READ) <;> simp

/-- With organization and repository present the result is the team scan. -/
theorem checkOrg_eq_loopTeam (st : Stores) (user : User) (namespace_ repository : String)
    (permission : Int) (horg : (st.OrgHas namespace_).1 = true)
    (hrepo : (st.RepoHas namespace_ repository).1 = true) :
    checkOrgRepositoryPermission st user namespace_ repository permission
      = loopTeam st (st.RepoHas namespace_ repository).2 permission user.Teams := by
  simp [checkOrgRepositoryPermission, horg, hrepo]

/-- C1: with organization and repository present, the first privilege (teams
in list order, privileges of a team in list order) whose `Repository` is the
repository's UUID decides: the result is `true` iff (flag true and
`PERMISSION_WRITE`) or (flag false and `PERMISSION_READ`), whatever follows
it (`ts₂`, `ps₂` and what they resolve to are arbitrary); and when every
team and privilege resolves and none matches, the result is `false`. -/
theorem checkOrg_first_match_decides (st : Stores) (user : User)
    (namespace_ repository : String) (permission : Int)
    (horg : (st.OrgHas namespace_).1 = true)
    (hrepo : (st.RepoHas namespace_ repository).1 = true) :
    (∀ (ts₁ ts₂ ps₁ ps₂ : List String) (k v : String) (team : Team) (p : Privilege),
      user.Teams = ts₁ ++ k :: ts₂ →
      (∀ t ∈ ts₁, ∃ tm, st.TeamGet t = some tm ∧
        ∀ q ∈ tm.TeamPrivileges, ∃ pq, st.PrivilegeGet q = some pq ∧
          pq.Repository ≠ (st.RepoHas namespace_ repository).2.UUID) →
      st.TeamGet k = some team →
      team.TeamPrivileges = ps₁ ++ v :: ps₂ →
      (∀ q ∈ ps₁, ∃ pq, st.PrivilegeGet q = some pq ∧
        pq.Repository ≠ (st.RepoHas namespace_ repository).2.UUID) →
      st.PrivilegeGet v = some p →
      p.Repository = (st.RepoHas namespace_ repository).2.UUID →
      (checkOrgRepositoryPermission st user namespace_ repository permission = true ↔
        (p.Privilege = true ∧ permission = PERMISSION_WRITE) ∨
        (p.Privilege = false ∧ permission = PERMISSION_READ))) ∧
    ((∀ t ∈ user.Teams, ∃ tm, st.TeamGet t = some tm ∧
        ∀ q ∈ tm.TeamPrivileges, ∃ pq, st.PrivilegeGet q = some pq ∧
          pq.Repository ≠ (st.RepoHas namespace_ repository).2.UUID) →
      checkOrgRepositoryPermission st user namespace_ repository permission = false) := by
  refine ⟨?_, ?_⟩
  · intro ts₁ ts₂ ps₁ ps₂ k v team p hT hts hk hteam hps hv hp
    rw [checkOrg_eq_loopTeam st user namespace_ repository permission horg hrepo, hT,
      loopTeam_first_match st _ permission ts₁ ts₂ ps₁ ps₂ k v team p hts hk hteam hps hv hp]
    cases p.Privilege <;> simp
  · intro hall
    rw [checkOrg_eq_loopTeam st user namespace_ repository permission horg hrepo]
    have h0 := loopTeam_skip st (st.RepoHas namespace_ repository).2 permission user.Teams [] hall
    rw [List.append_nil] at h0
    rw [h0]; rfl

/-- C1, at the example: for `bob`, the first grant on `repo-1` is the write
grant `pw` of team `t1`, so a read request is refused although the read-only
grant `pr` follows twice. -/
theorem checkOrg_first_match_decides_witness :
    (checkOrgRepositoryPermission exStores exUser "acme" "app" PERMISSION_READ = true ↔
      ((true = true ∧ PERMISSION_READ = PERMISSION_WRITE) ∨
       (true = false ∧ PERMISSION_READ = PERMISSION_READ))) :=
  (checkOrg_first_match_decides exStores exUser "acme" "app" PERMISSION_READ rfl rfl).1
    [] ["t2"] ["p0"] ["pr"] "t1" "pw" ⟨["p0", "pw", "pr"]⟩ ⟨true, "repo-1"⟩
    rfl (by simp) rfl rfl (by decide) rfl rfl

/-- C2: when the organization exists and the repository does not, the result
is the ownership flag, membership of the organization's UUID in
`user.Organizations`; permission, teams and privileges play no part. -/
theorem checkOrg_repo_missing_owner (st : Stores) (user : User)
    (namespace_ repository : String) (permission : Int)
    (horg : (st.OrgHas namespace_).1 = true)
    (hrepo : (st.RepoHas namespace_ repository).1 = false) :
    checkOrgRepositoryPermission st user namespace_ repository permission
      = decide ((st.OrgHas namespace_).2.UUID ∈ user.Organizations) := by
  unfold checkOrgRepositoryPermission
  simp only [owner_foldl]
  simp [horg, hrepo]

/-- C2, at the example: `acme/new` does not exist and `bob` owns `org-1`. -/
theorem checkOrg_repo_missing_owner_witness :
    checkOrgRepositoryPermission exStores exUser "acme" "new" PERMISSION_WRITE
      = decide ("org-1" ∈ exUser.Organizations) :=
  checkOrg_repo_missing_owner exStores exUser "acme" "new" PERMISSION_WRITE rfl rfl

/-- C8 as stated fails: for `bob` the first grant on `repo-1` is the write
grant `pw`, the read-only grant `pr` on the same repository follows in the
same team and in the next one, and a read request is refused. -/
theorem checkOrg_write_grant_read_request_counterexample :
    exUser.Teams = ["t1", "t2"] ∧
    exStores.RepoHas "acme" "app" = (true, ⟨"repo-1"⟩) ∧
    exStores.TeamGet "t1" = some ⟨["p0", "pw", "pr"]⟩ ∧
    exStores.TeamGet "t2" = some ⟨["pr"]⟩ ∧
    exStores.PrivilegeGet "p0" = some ⟨true, "repo-0"⟩ ∧
    exStores.PrivilegeGet "pw" = some ⟨true, "repo-1"⟩ ∧
    exStores.PrivilegeGet "pr" = some ⟨false, "repo-1"⟩ ∧
    checkOrgRepositoryPermission exStores exUser "acme" "app" PERMISSION_READ = false := by
  decide

/-- C8, amended: when the first privilege for the repository is write-capable
and the request is `PERMISSION_READ`, that privilege decides and the result is
`false`, whatever privileges and teams follow. -/
theorem checkOrg_write_grant_read_request_denied (st : Stores) (user : User)
    (namespace_ repository : String) (permission : Int)
    (ts₁ ts₂ ps₁ ps₂ : List String) (k v : String) (team : Team) (p : Privilege)
    (horg : (st.OrgHas namespace_).1 = true)
    (hrepo : (st.RepoHas namespace_ repository).1 = true)
    (hT : user.Teams = ts₁ ++ k :: ts₂)
    (hts : ∀ t ∈ ts₁, ∃ tm, st.TeamGet t = some tm ∧
      ∀ q ∈ tm.TeamPrivileges, ∃ pq, st.PrivilegeGet q = some pq ∧
        pq.Repository ≠ (st.RepoHas namespace_ repository).2.UUID)
    (hk : st.TeamGet k = some team) (hteam : team.TeamPrivileges = ps₁ ++ v :: ps₂)
    (hps : ∀ q ∈ ps₁, ∃ pq, st.PrivilegeGet q = some pq ∧
      pq.Repository ≠ (st.RepoHas namespace_ repository).2.UUID)
    (hv : st.PrivilegeGet v = some p)
    (hp : p.Repository = (st.RepoHas namespace_ repository).2.UUID)
    (hw : p.Privilege = true) (hread : permission = PERMISSION_READ) :
    checkOrgRepositoryPermission st user namespace_ repository permission = false := by
  rw [checkOrg_eq_loopTeam st user namespace_ repository permission horg hrepo, hT,
    loopTeam_first_match st _ permission ts₁ ts₂ ps₁ ps₂ k v team p hts hk hteam hps hv hp,
    hw, hread]
  decide

/-- C8, amended, at the example. -/
theorem checkOrg_write_grant_read_request_denied_witness :
    checkOrgRepositoryPermission exStores exUser "acme" "app" PERMISSION_READ = false :=
  checkOrg_write_grant_read_request_denied exStores exUser "acme" "app" PERMISSION_READ
    [] ["t2"] ["p0"] ["pr"] "t1" "pw" ⟨["p0", "pw", "pr"]⟩ ⟨true, "repo-1"⟩
    rfl rfl rfl (by simp) rfl rfl (by decide) rfl rfl rfl rfl

/-! ## `FilterAuth` -/

/-- The entry of the descriptor table written on denial. -/
theorem errorDescriptorUnauthorized_eq :
    ErrorDescriptorUnauthorized = some
      { Code := 1, Value := "UNAUTHORIZED",
        Message := "access to the requested resource is not authorized",
        Description := "The access controller denied access for the operation on\n    a resource. Often this will be accompanied by a 401 Unauthorized\n    response status." } := rfl

/-- The code after the label `AUTH` with `auth == false`. -/
theorem labelAUTH_false (ctx : Context) :
    labelAUTH ctx false = some { ctx with
      Status := some 404,
      Body := some [("errors", [⟨1, "UNAUTHORIZED",
        "access to the requested resource is not authorized",
        "The access controller denied access for the operation on\n    a resource. Often this will be accompanied by a 401 Unauthorized\n    response status."⟩])] } := by
  simp [labelAUTH, errorDescriptorUnauthorized_eq, StatusNotFound]

/-- The code after the label `AUTH` with `auth == true`. -/
theorem labelAUTH_true (ctx : Context) : labelAUTH ctx true = some ctx := by
  simp [labelAUTH]

/-- C5: when the header passes the basic-scheme gate, decodes, and resolves
to a user whose `Username` is the namespace taken from the request,
`FilterAuth` leaves status and body untouched: the request is allowed
whatever the method and whatever the organization, repository, team and
privilege stores hold (they are arbitrary in `st`). -/
theorem FilterAuth_own_namespace_allowed (st : Stores) (ctx : Context)
    (username passwd repository : String) (user : User)
    (hlen : ctx.Authorization.length ≠ 0)
    (hbasic : stringsIndex ctx.Authorization "Basic" ≠ -1)
    (hdec : st.DecodeBasicAuth ctx.Authorization = some (username, passwd))
    (huser : st.UserGet username passwd = some user)
    (hns : extractNames ctx = some (user.Username, repository)) :
    FilterAuth st ctx = some ctx := by
  unfold FilterAuth
  by_cases hping : stringsIndex ctx.URL "_ping" > 0
  · simp [hping, labelAUTH_true]
  · simp only [hping, if_false, hns, hdec, huser]
    have hgate : (ctx.Authorization.length == 0 ||
        stringsIndex ctx.Authorization "Basic" == -1) = false := by
      simp [hlen, hbasic]
    simp [hgate, labelAUTH_true]

/-- C5, at the example: `bob` pushes to `bob/app`. -/
theorem FilterAuth_own_namespace_allowed_witness : FilterAuth exStores exOwn = some exOwn :=
  FilterAuth_own_namespace_allowed exStores exOwn "bob" "secret" "app"
    ⟨"bob", ["org-1"], ["t1", "t2"]⟩ (by decide) (by decide) rfl rfl (by decide)

/-- C6 as stated fails: the liveness check without an `Authorization` header is
allowed, no status and no body are written. -/
theorem FilterAuth_missing_header_counterexample :
    exPing.Authorization = "" ∧ FilterAuth exStores exPing = some exPing ∧
      exPing.Status = none ∧ exPing.Body = none := by
  decide

/-- C6, amended: for a request whose URL does not hold `_ping` after its
first character and whose `:splat` parameter has the segments the name
extraction indexes, an `Authorization` header that is empty, lacks `Basic`
or fails to decode gives the denial: status 404 and the body with the
unauthorized descriptor. -/
theorem FilterAuth_bad_header_denied (st : Stores) (ctx : Context)
    (namespace_ repository : String)
    (hping : ¬ stringsIndex ctx.URL "_ping" > 0)
    (hns : extractNames ctx = some (namespace_, repository))
    (hbad : ctx.Authorization.length = 0 ∨ stringsIndex ctx.Authorization "Basic" = -1 ∨
      st.DecodeBasicAuth ctx.Authorization = none) :
    FilterAuth st ctx = some { ctx with
      Status := some 404,
      Body := some [("errors", [⟨1, "UNAUTHORIZED",
        "access to the requested resource is not authorized",
        "The access controller denied access for the operation on\n    a resource. Often this will be accompanied by a 401 Unauthorized\n    response status."⟩])] } := by
  unfold FilterAuth
  simp only [hping, if_false, hns]
  by_cases hgate : (ctx.Authorization.length == 0 ||
      stringsIndex ctx.Authorization "Basic" == -1) = true
  · simp only [hgate, if_true, labelAUTH_false]
  · have hgate2 : ¬ (ctx.Authorization.length = 0 ∨
        stringsIndex ctx.Authorization "Basic" = -1) := by
      simpa using hgate
    have hdec : st.DecodeBasicAuth ctx.Authorization = none := by
      rcases hbad with h | h | h
      · exact absurd (Or.inl h) hgate2
      · exact absurd (Or.inr h) hgate2
      · exact h
    simp only [hgate, hdec, labelAUTH_false]
    simp

/-- C6, amended, at the example: a push without a header. -/
theorem FilterAuth_bad_header_denied_witness :
    FilterAuth exStores exNoHeader = some { exNoHeader with
      Status := some 404,
      Body := some [("errors", [⟨1, "UNAUTHORIZED",
        "access to the requested resource is not authorized",
        "The access controller denied access for the operation on\n    a resource. Often this will be accompanied by a 401 Unauthorized\n    response status."⟩])] } :=
  FilterAuth_bad_header_denied exStores exNoHeader "acme" "app" (by decide) (by decide)
    (Or.inl (by decide))

/-- C7 as stated fails: a legacy image request whose header passes the
presence gate, for credentials the user store does not know, is denied. -/
theorem FilterAuth_image_counterexample :
    isImageResource exImage.URL = true ∧ exImage.Authorization.length ≠ 0 ∧
    stringsIndex exImage.Authorization "Basic" ≠ -1 ∧
    FilterAuth exStores exImage = some { exImage with
      Status := some 404,
      Body := some [("errors", [⟨1, "UNAUTHORIZED",
        "access to the requested resource is not authorized",
        "The access controller denied access for the operation on\n    a resource. Often this will be accompanied by a 401 Unauthorized\n    response status."⟩])] } := by
  decide

/-- C7, amended: a legacy image request whose header passes the presence
gate and whose credentials decode and resolve to a known user is allowed,
whatever the namespace, repository and method and whatever the organization,
repository, team and privilege stores hold. -/
theorem FilterAuth_image_allowed (st : Stores) (ctx : Context)
    (username passwd namespace_ repository : String) (user : User)
    (himg : isImageResource ctx.URL = true)
    (hlen : ctx.Authorization.length ≠ 0)
    (hbasic : stringsIndex ctx.Authorization "Basic" ≠ -1)
    (hdec : st.DecodeBasicAuth ctx.Authorization = some (username, passwd))
    (huser : st.UserGet username passwd = some user)
    (hns : extractNames ctx = some (namespace_, repository)) :
    FilterAuth st ctx = some ctx := by
  unfold FilterAuth
  by_cases hping : stringsIndex ctx.URL "_ping" > 0
  · simp [hping, labelAUTH_true]
  · simp only [hping, if_false, hns, hdec, huser]
    have hgate : (ctx.Authorization.length == 0 ||
        stringsIndex ctx.Authorization "Basic" == -1) = false := by
      simp [hlen, hbasic]
    simp [hgate, himg, labelAUTH_true]

/-- C7, amended, at the example: `bob` reads a legacy image sub-resource. -/
theorem FilterAuth_image_allowed_witness : FilterAuth exStores exImageBob = some exImageBob :=
  FilterAuth_image_allowed exStores exImageBob "bob" "secret" "abc" "json"
    ⟨"bob", ["org-1"], ["t1", "t2"]⟩ (by decide) (by decide) (by decide) rfl rfl (by decide)

/-! ## `manifestsConvertV1` -/

set_option maxRecDepth 100000

theorem accepted_append (S : List Write → Write → Option Error) (t ws₁ ws₂ : List Write)
    (h₁ : accepted S t ws₁) (h₂ : accepted S (t ++ ws₁) ws₂) : accepted S t (ws₁ ++ ws₂) := by
  induction ws₁ generalizing t with
  | nil => simpa using h₂
  | cons w ws ih =>
    obtain ⟨hw, hws⟩ := h₁
    refine ⟨hw, ih (t ++ [w]) hws ?_⟩
    simpa using h₂

theorem accepted_prefix (S : List Write → Write → Option Error) (t ws pre : List Write)
    (w : Write) (h : accepted S t ws) (hpre : (pre ++ [w]) <+: ws) : S (t ++ pre) w = none := by
  induction ws generalizing t pre with
  | nil =>
    have := List.prefix_nil.mp hpre
    simp at this
  | cons x xs ih =>
    obtain ⟨hx, hxs⟩ := h
    cases pre with
    | nil =>
      have hxw : w = x := by
        obtain ⟨r, hr⟩ := hpre
        simp at hr
        exact hr.1
      subst hxw
      simpa using hx
    | cons y ys =>
      obtain ⟨r, hr⟩ := hpre
      simp at hr
      obtain ⟨hy, hrest⟩ := hr
      subst hy
      have := ih (t ++ [y]) ys hxs ⟨r, by simpa using hrest⟩
      simpa using this

theorem rel_bind {α β : Type} {S : List Write → Write → Option Error} {mS mA : Conv α}
    {fS fA : α → Conv β} (hm : Rel S mS mA) (hf : ∀ a, Rel S (fS a) (fA a)) :
    Rel S (mS >>= fS) (mA >>= fA) := by
  intro t
  show (accepted S t (Conv.bind mS fS t).1 ∧ Conv.bind mS fS t = Conv.bind mA fA t) ∨
    (∃ pre w e, (Conv.bind mS fS t).1 = pre ++ [w] ∧ accepted S t pre ∧
      S (t ++ pre) w = some e ∧ (Conv.bind mS fS t).2 = Res.err e ∧
      (pre ++ [w]) <+: (Conv.bind mA fA t).1)
  rcases hm t with ⟨hacc, heq⟩ | ⟨pre, w, e, hws, hacc, hrej, hres, hpre⟩
  · unfold Conv.bind
    rw [← heq]
    rcases hmt : mS t with ⟨ws, r⟩
    rw [hmt] at hacc
    cases r with
    | ok a =>
      simp only
      rcases hf a (t ++ ws) with ⟨hacc2, heq2⟩ | ⟨pre2, w2, e2, hws2, hacc2, hrej2, hres2, hpre2⟩
      · left
        exact ⟨accepted_append S t ws _ hacc hacc2, by rw [heq2]⟩
      · right
        refine ⟨ws ++ pre2, w2, e2, ?_, accepted_append S t ws _ hacc hacc2, ?_, hres2, ?_⟩
        · rw [hws2, List.append_assoc]
        · rw [← List.append_assoc]; exact hrej2
        · rw [List.append_assoc]
          exact (List.prefix_append_right_inj ws).mpr hpre2
    | err e => left; exact ⟨hacc, rfl⟩
    | panic => left; exact ⟨hacc, rfl⟩
  · right
    have hS : Conv.bind mS fS t = ((mS t).1, Res.err e) := by
      unfold Conv.bind
      rcases hmt : mS t with ⟨ws, r⟩
      rw [hmt] at hres
      simp only at hres
      subst hres
      rfl
    refine ⟨pre, w, e, by rw [hS]; exact hws, hacc, hrej, by rw [hS], ?_⟩
    refine hpre.trans ?_
    unfold Conv.bind
    rcases mA t with ⟨wa, ra⟩
    cases ra with
    | ok a => exact List.prefix_append _ _
    | err e => exact List.prefix_refl _
    | panic => exact List.prefix_refl _

theorem rel_silent {α : Type} (S : List Write → Write → Option Error) (m : Conv α)
    (h : ∀ t, (m t).1 = []) : Rel S m m := by
  intro t
  left
  rw [h t]
  exact ⟨trivial, rfl⟩

theorem rel_assert {α : Type} (S : List Write → Write → Option Error) (o : Option α) :
    Rel S (Conv.assert o) (Conv.assert o) :=
  rel_silent S _ (fun _ => by cases o <;> rfl)

theorem rel_check {α : Type} (S : List Write → Write → Option Error) (x : Except Error α) :
    Rel S (Conv.check x) (Conv.check x) :=
  rel_silent S _ (fun _ => by cases x <;> rfl)

theorem rel_pure {α : Type} (S : List Write → Write → Option Error) (a : α) :
    Rel S (pure a : Conv α) (pure a) :=
  rel_silent S _ (fun _ => rfl)

theorem rel_call (u : String → Except Error (List (String × JValue))) (b : String) (v : Int)
    (S : List Write → Write → Option Error) (w : Write) :
    Rel S (Conv.call ⟨u, b, v, S⟩ w) (Conv.call ⟨u, b, v, fun _ _ => none⟩ w) := by
  intro t
  unfold Conv.call
  simp only
  cases h : S t w with
  | none => left; exact ⟨⟨h, trivial⟩, rfl⟩
  | some e => right; exact ⟨[], w, e, rfl, trivial, by simpa using h, rfl, List.prefix_refl _⟩

theorem rel_ite {α : Type} {S : List Write → Write → Option Error} (c : Prop) [Decidable c]
    {aS aA bS bA : Conv α} (ha : Rel S aS aA) (hb : Rel S bS bA) :
    Rel S (if c then aS else bS) (if c then aA else bA) := by
  split
  · exact ha
  · exact hb

theorem loopBody_rel (u : String → Except Error (List (String × JValue))) (b : String) (v : Int)
    (S : List Write → Write → Option Error) (manifest : List (String × JValue)) (tag : JValue)
    (namespace_ repository : String) (k : Nat) :
    Rel S (loopBody ⟨u, b, v, S⟩ manifest tag namespace_ repository k)
      (loopBody ⟨u, b, v, fun _ _ => none⟩ manifest tag namespace_ repository k) := by
  unfold loopBody
  repeat' first
    | exact rel_assert S _
    | exact rel_check S _
    | exact rel_pure S _
    | exact rel_call u b v S _
    | refine rel_bind ?_ (fun _ => ?_)
    | refine rel_ite _ ?_ ?_


theorem loopFrom_rel (u : String → Except Error (List (String × JValue))) (b : String) (v : Int)
    (S : List Write → Write → Option Error) (manifest : List (String × JValue)) (tag : JValue)
    (namespace_ repository : String) (k : Nat) :
    Rel S (loopFrom ⟨u, b, v, S⟩ manifest tag namespace_ repository k)
      (loopFrom ⟨u, b, v, fun _ _ => none⟩ manifest tag namespace_ repository k) := by
  induction k with
  | zero => exact rel_pure S _
  | succ k ih =>
    unfold loopFrom
    exact rel_bind (loopBody_rel u b v S manifest tag namespace_ repository (k + 1)) (fun _ => ih)

theorem manifestsConvertV1Conv_rel (u : String → Except Error (List (String × JValue)))
    (b : String) (v : Int) (S : List Write → Write → Option Error) (data : String) :
    Rel S (manifestsConvertV1Conv ⟨u, b, v, S⟩ data)
      (manifestsConvertV1Conv ⟨u, b, v, fun _ _ => none⟩ data) := by
  unfold manifestsConvertV1Conv
  repeat' first
    | exact rel_assert S _
    | exact rel_check S _
    | exact loopFrom_rel u b v S _ _ _ _ _
    | refine rel_bind ?_ (fun _ => ?_)

/-- A run against stores `S` and the run against stores that accept every
write: they agree, or the first stops at the first rejected write. -/
theorem manifestsConvertV1_rel (env : ConvertEnv) (data : String) :
    (accepted env.Store [] (manifestsConvertV1 env data).1 ∧
      manifestsConvertV1 env data
        = manifestsConvertV1 { env with Store := fun _ _ => none } data) ∨
    (∃ pre w e, (manifestsConvertV1 env data).1 = pre ++ [w] ∧ accepted env.Store [] pre ∧
      env.Store pre w = some e ∧ (manifestsConvertV1 env data).2 = Res.err e ∧
      (pre ++ [w]) <+: (manifestsConvertV1 { env with Store := fun _ _ => none } data).1) := by
  obtain ⟨u, b, v, S⟩ := env
  have h := manifestsConvertV1Conv_rel u b v S data []
  simpa [manifestsConvertV1] using h

/-- A failing decode of the manifest ends the call before any write. -/
theorem manifestsConvertV1_decode_error (env : ConvertEnv) (data : String) (e : Error)
    (h : env.Unmarshal data = Except.error e) :
    manifestsConvertV1 env data = ([], Res.err e) := by
  simp [manifestsConvertV1, manifestsConvertV1Conv, h, Conv.check, bind, Conv.bind]

/-- A failing decode of the `v1Compatibility` string at the loop counter ends
the loop before any further write. -/
theorem loopFrom_blob_error (env : ConvertEnv) (manifest : List (String × JValue))
    (tag : JValue) (namespace_ repository : String) (k : Nat) (history : List JValue)
    (vmap : List (String × JValue)) (blob : String) (e : Error) (t : List Write)
    (hk : 0 < k)
    (hh : assertSlice (mapIndex manifest "history") = some history)
    (hv : history[k]? = some (JValue.object vmap))
    (hb : mapIndex vmap "v1Compatibility" = JValue.string blob)
    (he : env.Unmarshal blob = Except.error e) :
    loopFrom env manifest tag namespace_ repository k t = ([], Res.err e) := by
  cases k with
  | zero => exact absurd hk (Nat.lt_irrefl 0)
  | succ k =>
    simp [loopFrom, loopBody, hh, hv, hb, he, Conv.check, Conv.assert, bind, Conv.bind,
      assertMap, assertString]

/-- C3, at the scenario of the specification (two history entries): the call
returns `nil` after one `PutJSON`, one `PutLayer`, one `PutChecksum` and one
`PutAncestry`, all for `img1`; nothing is written for `img0`. -/
theorem manifestsConvertV1_scenario_writes :
    manifestsConvertV1 exEnv exManifestText
      = ([Write.PutJSONFromManifests [("id", "img1")] "alice" "alice",
          Write.PutJSON "img1" exBlob1 2,
          Write.PutLayer "img1" "/data/uuid/bbb/layer" true 20,
          Write.PutChecksum "img1" "bbb" true "",
          Write.PutAncestry "img1"], Res.ok ()) ∧
    ((manifestsConvertV1 exEnv exManifestText).1.map Write.method).count "PutJSON" = 1 ∧
    ((manifestsConvertV1 exEnv exManifestText).1.map Write.method).count "PutLayer" = 1 ∧
    ((manifestsConvertV1 exEnv exManifestText).1.map Write.method).count "PutChecksum" = 1 ∧
    ((manifestsConvertV1 exEnv exManifestText).1.map Write.method).count "PutAncestry" = 1 := by
  decide

theorem noTag_bind {α β : Type} {m : Conv α} {f : α → Conv β} (hm : noTag m)
    (hf : ∀ a, noTag (f a)) : noTag (m >>= f) := by
  intro t w hw
  change w ∈ (Conv.bind m f t).1 at hw
  unfold Conv.bind at hw
  have hmt := hm t
  rcases hmt2 : m t with ⟨ws, r⟩
  rw [hmt2] at hw hmt
  cases r with
  | ok a =>
    simp only [List.mem_append] at hw
    rcases hw with h | h
    · exact hmt w h
    · exact hf a (t ++ ws) w h
  | err e => exact hmt w hw
  | panic => exact hmt w hw

theorem noTag_silent {α : Type} (m : Conv α) (h : ∀ t, (m t).1 = []) : noTag m := by
  intro t w hw
  rw [h t] at hw
  exact absurd hw (List.not_mem_nil w)

theorem noTag_assert {α : Type} (o : Option α) : noTag (Conv.assert o) :=
  noTag_silent _ (fun _ => by cases o <;> rfl)

theorem noTag_check {α : Type} (x : Except Error α) : noTag (Conv.check x) :=
  noTag_silent _ (fun _ => by cases x <;> rfl)

theorem noTag_pure {α : Type} (a : α) : noTag (pure a : Conv α) :=
  noTag_silent _ (fun _ => rfl)

theorem noTag_call (env : ConvertEnv) (w : Write) (h : w.method ≠ "PutTagFromManifests") :
    noTag (Conv.call env w) := by
  intro t x hx
  unfold Conv.call at hx
  have hx2 : x = w := by
    cases hS : env.Store t w <;> rw [hS] at hx <;> simpa using hx
  rw [hx2]
  exact h

theorem noTag_ite {α : Type} (c : Prop) [Decidable c] {a b : Conv α} (ha : noTag a)
    (hb : noTag b) : noTag (if c then a else b) := by
  split
  · exact ha
  · exact hb

/-- Inside the loop the counter is positive, and the body writes no tag binding. -/
theorem loopBody_noTag (env : ConvertEnv) (manifest : List (String × JValue)) (tag : JValue)
    (namespace_ repository : String) (k : Nat) :
    noTag (loopBody env manifest tag namespace_ repository (k + 1)) := by
  have hk : (k + 1 == 0) = false := rfl
  unfold loopBody
  simp only [hk, Bool.false_eq_true, if_false]
  repeat' first
    | exact noTag_assert _
    | exact noTag_check _
    | exact noTag_pure _
    | (refine noTag_call env _ ?_; simp [Write.method])
    | refine noTag_bind ?_ (fun _ => ?_)

theorem loopFrom_noTag (env : ConvertEnv) (manifest : List (String × JValue)) (tag : JValue)
    (namespace_ repository : String) (k : Nat) :
    noTag (loopFrom env manifest tag namespace_ repository k) := by
  induction k with
  | zero => exact noTag_pure _
  | succ k ih =>
    unfold loopFrom
    exact noTag_bind (loopBody_noTag env manifest tag namespace_ repository k) (fun _ => ih)

/-- The tag binding write of `manifestsConvertV1` is unreachable. -/
theorem manifestsConvertV1_noTag (env : ConvertEnv) (data : String) :
    ∀ w ∈ (manifestsConvertV1 env data).1, w.method ≠ "PutTagFromManifests" := by
  have h : noTag (manifestsConvertV1Conv env data) := by
    unfold manifestsConvertV1Conv
    repeat' first
      | exact noTag_assert _
      | exact noTag_check _
      | exact loopFrom_noTag env _ _ _ _ _
      | refine noTag_bind ?_ (fun _ => ?_)
  exact h []

/-- The body of the loop at a positive index `k`, for well-formed entries
`history[k]` and `fsLayers[k]` and stores that accept the five writes: the
five writes of the index, in order, and the loop goes on. -/
theorem loopBody_writes (env : ConvertEnv) (manifest : List (String × JValue)) (tag : JValue)
    (namespace_ repository : String) (k : Nat) (t : List Write)
    (history fsLayers : List JValue) (vmap image lmap : List (String × JValue))
    (blob id tarsum sha : String) (size : Int)
    (hk : 0 < k)
    (hh : mapIndex manifest "history" = JValue.array history)
    (hv : history[k]? = some (JValue.object vmap))
    (hb : mapIndex vmap "v1Compatibility" = JValue.string blob)
    (hu : env.Unmarshal blob = Except.ok image)
    (hid : mapIndex image "id" = JValue.string id)
    (hsz : mapIndex image "Size" = JValue.number size)
    (hf : mapIndex manifest "fsLayers" = JValue.array fsLayers)
    (hl : fsLayers[k]? = some (JValue.object lmap))
    (hs : mapIndex lmap "blobSum" = JValue.string tarsum)
    (hsha : (stringsSplit tarsum ":")[1]? = some sha)
    (hacc : accepted env.Store t
      [Write.PutJSONFromManifests [("id", id)] namespace_ repository,
       Write.PutJSON id blob env.APIVERSION_V2,
       Write.PutLayer id (env.BasePath ++ "/uuid/" ++ sha ++ "/layer") true size,
       Write.PutChecksum id sha true "",
       Write.PutAncestry id]) :
    loopBody env manifest tag namespace_ repository k t
      = ([Write.PutJSONFromManifests [("id", id)] namespace_ repository,
          Write.PutJSON id blob env.APIVERSION_V2,
          Write.PutLayer id (env.BasePath ++ "/uuid/" ++ sha ++ "/layer") true size,
          Write.PutChecksum id sha true "",
          Write.PutAncestry id], Res.ok ()) := by
  obtain ⟨k, rfl⟩ : ∃ j, k = j + 1 := ⟨k - 1, by omega⟩
  obtain ⟨h1, h2, h3, h4, h5, _⟩ := hacc
  simp only [List.append_assoc, List.singleton_append, List.cons_append, List.nil_append] at h2 h3 h4 h5
  have hk0 : (k + 1 == 0) = false := rfl
  simp [loopBody, hk0, hh, hv, hb, hu, hid, hsz, hf, hl, hs, hsha, h1, h2, h3, h4, h5,
    Conv.check, Conv.assert, Conv.call, bind, Conv.bind, pure, assertMap, assertString,
    assertSlice, assertFloat64, mapSet]

/-- C4: at the scenario of the specification the call returns `nil` and none
of its writes is a `PutTagFromManifests`; and no call of `manifestsConvertV1`,
for any document and any stores, issues a `PutTagFromManifests`. -/
theorem manifestsConvertV1_never_writes_tag :
    ((manifestsConvertV1 exEnv exManifestText).2 = Res.ok () ∧
      ((manifestsConvertV1 exEnv exManifestText).1.map Write.method).count
        "PutTagFromManifests" = 0) ∧
    (∀ (env : ConvertEnv) (data : String), ∀ w ∈ (manifestsConvertV1 env data).1,
      w.method ≠ "PutTagFromManifests") :=
  ⟨by decide, manifestsConvertV1_noTag⟩

/-- C9: at a positive index `k` with well-formed `history[k]` and
`fsLayers[k]` and stores that accept the writes of the index, the body of the
loop issues exactly one checksum write, for the `id` decoded from
`history[k]`, with the second `:`-separated piece of `fsLayers[k].blobSum`,
`true` and the empty payload; at the scenario of the specification the only
checksum write of the call is the one for `img1` (the hash of `fsLayers[1]`),
there is none for `img0`. -/
theorem manifestsConvertV1_checksums :
    (∀ (env : ConvertEnv) (manifest : List (String × JValue)) (tag : JValue)
      (namespace_ repository : String) (k : Nat) (t : List Write)
      (history fsLayers : List JValue) (vmap image lmap : List (String × JValue))
      (blob id tarsum sha : String) (size : Int),
      0 < k →
      mapIndex manifest "history" = JValue.array history →
      history[k]? = some (JValue.object vmap) →
      mapIndex vmap "v1Compatibility" = JValue.string blob →
      env.Unmarshal blob = Except.ok image →
      mapIndex image "id" = JValue.string id →
      mapIndex image "Size" = JValue.number size →
      mapIndex manifest "fsLayers" = JValue.array fsLayers →
      fsLayers[k]? = some (JValue.object lmap) →
      mapIndex lmap "blobSum" = JValue.string tarsum →
      (stringsSplit tarsum ":")[1]? = some sha →
      accepted env.Store t
        [Write.PutJSONFromManifests [("id", id)] namespace_ repository,
         Write.PutJSON id blob env.APIVERSION_V2,
         Write.PutLayer id (env.BasePath ++ "/uuid/" ++ sha ++ "/layer") true size,
         Write.PutChecksum id sha true "",
         Write.PutAncestry id] →
      (loopBody env manifest tag namespace_ repository k t).1.filter
          (fun w => w.method == "PutChecksum")
        = [Write.PutChecksum id sha true ""]) ∧
    (manifestsConvertV1 exEnv exManifestText).1.filter
        (fun w => w.method == "PutChecksum")
      = [Write.PutChecksum "img1" "bbb" true ""] := by
  refine ⟨?_, by decide⟩
  intro env manifest tag namespace_ repository k t history fsLayers vmap image lmap blob id
    tarsum sha size hk hh hv hb hu hid hsz hf hl hs hsha hacc
  rw [loopBody_writes env manifest tag namespace_ repository k t history fsLayers vmap image
    lmap blob id tarsum sha size hk hh hv hb hu hid hsz hf hl hs hsha hacc]
  simp [List.filter, Write.method]

/-! ## `checkOrgRepositoryPermission`: missing organization, failed lookups, ownership -/

/-- C11: when no organization exists for the namespace the result is `false`,
whatever the user's organization references, teams and privileges and whether
or not the repository exists. -/
theorem checkOrg_org_missing_denied (st : Stores) (user : User)
    (namespace_ repository : String) (permission : Int)
    (horg : (st.OrgHas namespace_).1 = false) :
    checkOrgRepositoryPermission st user namespace_ repository permission = false := by
  simp [checkOrgRepositoryPermission, horg]

/-- C11, at the example: no organization `nobody`, for the owner `bob`. -/
theorem checkOrg_org_missing_denied_witness :
    checkOrgRepositoryPermission exStores exUser "nobody" "app" PERMISSION_READ = false :=
  checkOrg_org_missing_denied exStores exUser "nobody" "app" PERMISSION_READ rfl

/-- The privilege loop never returns `true` when no privilege that resolves is
for the repository. -/
theorem loopTeamPrivileges_no_match (st : Stores) (repo : Repository) (permission : Int)
    (ps : List String)
    (h : ∀ q ∈ ps, ∀ pq, st.PrivilegeGet q = some pq → pq.Repository ≠ repo.UUID) :
    loopTeamPrivileges st repo permission ps ≠ some true := by
  induction ps with
  | nil => simp [loopTeamPrivileges]
  | cons q qs ih =>
    rw [loopTeamPrivileges]
    cases hq : st.PrivilegeGet q with
    | none => simp
    | some pq =>
      have hne : (pq.Repository == repo.UUID) = false := by
        simpa using h q (List.mem_cons_self _ _) pq hq
      simp only [hne]
      exact ih (fun q2 hq2 => h q2 (List.mem_cons_of_mem _ hq2))

/-- The team scan returns `false` when no privilege that resolves, of a team
that resolves, is for the repository. -/
theorem loopTeam_no_match (st : Stores) (repo : Repository) (permission : Int)
    (ts : List String)
    (h : ∀ t ∈ ts, ∀ tm, st.TeamGet t = some tm →
      ∀ q ∈ tm.TeamPrivileges, ∀ pq, st.PrivilegeGet q = some pq →
        pq.Repository ≠ repo.UUID) :
    loopTeam st repo permission ts = false := by
  induction ts with
  | nil => rfl
  | cons t ts ih =>
    rw [loopTeam]
    cases ht : st.TeamGet t with
    | none => rfl
    | some tm =>
      have h1 := loopTeamPrivileges_no_match st repo permission tm.TeamPrivileges
        (h t (List.mem_cons_self _ _) tm ht)
      simp only
      cases hl : loopTeamPrivileges st repo permission tm.TeamPrivileges with
      | none => exact ih (fun t2 ht2 => h t2 (List.mem_cons_of_mem _ ht2))
      | some b =>
        cases b with
        | false => rfl
        | true => exact absurd hl h1

/-- C18: with organization and repository present, when the scan reaches a
team identifier, or a privilege identifier, that does not resolve before any
privilege for the repository has been found, the result is `false`, whatever
the rest of that team and the later teams (`ps₂`, `ts₂`) would grant. -/
theorem checkOrg_lookup_failure_denied (st : Stores) (user : User)
    (namespace_ repository : String) (permission : Int)
    (horg : (st.OrgHas namespace_).1 = true)
    (hrepo : (st.RepoHas namespace_ repository).1 = true) :
    (∀ (ts₁ ts₂ : List String) (k : String),
      user.Teams = ts₁ ++ k :: ts₂ →
      (∀ t ∈ ts₁, ∃ tm, st.TeamGet t = some tm ∧
        ∀ q ∈ tm.TeamPrivileges, ∃ pq, st.PrivilegeGet q = some pq ∧
          pq.Repository ≠ (st.RepoHas namespace_ repository).2.UUID) →
      st.TeamGet k = none →
      checkOrgRepositoryPermission st user namespace_ repository permission = false) ∧
    (∀ (ts₁ ts₂ ps₁ ps₂ : List String) (k v : String) (team : Team),
      user.Teams = ts₁ ++ k :: ts₂ →
      (∀ t ∈ ts₁, ∃ tm, st.TeamGet t = some tm ∧
        ∀ q ∈ tm.TeamPrivileges, ∃ pq, st.PrivilegeGet q = some pq ∧
          pq.Repository ≠ (st.RepoHas namespace_ repository).2.UUID) →
      st.TeamGet k = some team →
      team.TeamPrivileges = ps₁ ++ v :: ps₂ →
      (∀ q ∈ ps₁, ∃ pq, st.PrivilegeGet q = some pq ∧
        pq.Repository ≠ (st.RepoHas namespace_ repository).2.UUID) →
      st.PrivilegeGet v = none →
      checkOrgRepositoryPermission st user namespace_ repository permission = false) := by
  refine ⟨?_, ?_⟩
  · intro ts₁ ts₂ k hT hts hk
    rw [checkOrg_eq_loopTeam st user namespace_ repository permission horg hrepo, hT,
      loopTeam_skip st _ permission ts₁ _ hts, loopTeam, hk]
  · intro ts₁ ts₂ ps₁ ps₂ k v team hT hts hk hteam hps hv
    rw [checkOrg_eq_loopTeam st user namespace_ repository permission horg hrepo, hT,
      loopTeam_skip st _ permission ts₁ _ hts, loopTeam, hk]
    simp only [hteam]
    rw [loopTeamPrivileges_skip st _ permission ps₁ _ hps, loopTeamPrivileges, hv]

/-- C18, at the examples: for `eve` the first team does not resolve; for a
member of `t3` the first privilege does not resolve; both read requests are
refused although the read-only grant on `repo-1` follows. -/
theorem checkOrg_lookup_failure_denied_witness :
    checkOrgRepositoryPermission exStores exUserLost "acme" "app" PERMISSION_READ = false ∧
    checkOrgRepositoryPermission exStores2 ⟨"dan", [], ["t3"]⟩ "acme" "app" PERMISSION_READ
      = false :=
  ⟨(checkOrg_lookup_failure_denied exStores exUserLost "acme" "app" PERMISSION_READ
      rfl rfl).1 [] ["t2"] "tx" rfl (by simp) rfl,
   (checkOrg_lookup_failure_denied exStores2 ⟨"dan", [], ["t3"]⟩ "acme" "app" PERMISSION_READ
      rfl rfl).2 [] [] [] ["pr"] "t3" "px" ⟨["px", "pr"]⟩ rfl (by simp) rfl rfl (by simp) rfl⟩

/-- C19: with organization and repository present, two users with the same
`Teams` get the same result for every permission, whatever their
`Organizations`; and a user, owner or not, none of whose teams holds a
privilege for the repository is refused for every permission. -/
theorem checkOrg_ownership_irrelevant (st : Stores) (user₁ user₂ : User)
    (namespace_ repository : String) (permission : Int)
    (horg : (st.OrgHas namespace_).1 = true)
    (hrepo : (st.RepoHas namespace_ repository).1 = true)
    (hteams : user₁.Teams = user₂.Teams) :
    checkOrgRepositoryPermission st user₁ namespace_ repository permission
      = checkOrgRepositoryPermission st user₂ namespace_ repository permission ∧
    ((∀ t ∈ user₁.Teams, ∀ tm, st.TeamGet t = some tm →
        ∀ q ∈ tm.TeamPrivileges, ∀ pq, st.PrivilegeGet q = some pq →
          pq.Repository ≠ (st.RepoHas namespace_ repository).2.UUID) →
      checkOrgRepositoryPermission st user₁ namespace_ repository permission = false) := by
  refine ⟨?_, ?_⟩
  · rw [checkOrg_eq_loopTeam st user₁ namespace_ repository permission horg hrepo,
      checkOrg_eq_loopTeam st user₂ namespace_ repository permission horg hrepo, hteams]
  · intro h
    rw [checkOrg_eq_loopTeam st user₁ namespace_ repository permission horg hrepo]
    exact loopTeam_no_match st _ permission user₁.Teams h

/-- C19, at the examples: `bob` with and without the reference to `org-1` gets
the same answer to a write request, and the owner `olga`, member of no team,
is refused. -/
theorem checkOrg_ownership_irrelevant_witness :
    (checkOrgRepositoryPermission exStores exUser "acme" "app" PERMISSION_WRITE
      = checkOrgRepositoryPermission exStores exUserNoOrg "acme" "app" PERMISSION_WRITE) ∧
    checkOrgRepositoryPermission exStores exOwnerNoTeam "acme" "app" PERMISSION_WRITE = false :=
  ⟨(checkOrg_ownership_irrelevant exStores exUser exUserNoOrg "acme" "app" PERMISSION_WRITE
      rfl rfl rfl).1,
   (checkOrg_ownership_irrelevant exStores exOwnerNoTeam exOwnerNoTeam "acme" "app"
      PERMISSION_WRITE rfl rfl rfl).2 (by simp [exOwnerNoTeam])⟩

/-! ## `getPermission` -/

/-- C13: `getPermission` gives `PERMISSION_WRITE` exactly on `POST`, `PUT`
and `DELETE` and `PERMISSION_READ` on every other string, among them `HEAD`,
`GET`, the empty string and lower-case spellings. -/
theorem getPermission_table (method : String) :
    (getPermission method = PERMISSION_WRITE ↔
      (method = "POST" ∨ method = "PUT" ∨ method = "DELETE")) ∧
    (getPermission method = PERMISSION_READ ↔
      ¬ (method = "POST" ∨ method = "PUT" ∨ method = "DELETE")) ∧
    getPermission "HEAD" = PERMISSION_READ ∧ getPermission "GET" = PERMISSION_READ ∧
    getPermission "" = PERMISSION_READ ∧ getPermission "post" = PERMISSION_READ ∧
    getPermission "put" = PERMISSION_READ ∧ getPermission "delete" = PERMISSION_READ ∧
    getPermission "PATCH" = PERMISSION_READ := by
  have hw : ∀ m : String, (m = "POST" ∨ m = "PUT" ∨ m = "DELETE") →
      getPermission m = PERMISSION_WRITE := by
    intro m hm
    rcases hm with h | h | h <;> subst h <;> decide
  have hr : ∀ m : String, ¬ (m = "POST" ∨ m = "PUT" ∨ m = "DELETE") →
      getPermission m = PERMISSION_READ := by
    intro m hm
    have b1 : (m == "POST") = false := by
      simpa using fun h => hm (Or.inl h)
    have b2 : (m == "PUT") = false := by
      simpa using fun h => hm (Or.inr (Or.inl h))
    have b3 : (m == "DELETE") = false := by
      simpa using fun h => hm (Or.inr (Or.inr h))
    simp [getPermission, List.lookup, b1, b2, b3]
  have hne : PERMISSION_WRITE ≠ PERMISSION_READ := by decide
  refine ⟨⟨?_, hw method⟩, ⟨?_, hr method⟩,
    by decide, by decide, by decide, by decide, by decide, by decide, by decide⟩
  · intro h
    by_contra hc
    rw [hr method hc] at h
    exact hne h.symm
  · intro h hc
    rw [hw method hc] at h
    exact hne h

/-! ## `FilterAuth`: liveness check, responses, names -/

/-- An index found from position `i` on is `-1` or at least `i`. -/
theorem indexFrom_ge (substr s : List Char) (i : Nat) :
    indexFrom substr s i = -1 ∨ (i : Int) ≤ indexFrom substr s i := by
  induction s generalizing i with
  | nil =>
    unfold indexFrom
    split
    · right; exact le_refl _
    · left; rfl
  | cons c cs ih =>
    unfold indexFrom
    split
    · right; exact le_refl _
    · rcases ih (i + 1) with h | h
      · left; exact h
      · right
        have : (i : Int) ≤ ((i + 1 : Nat) : Int) := by push_cast; omega
        exact le_trans this h

/-- A string that contains `substr` and does not begin with it contains it
after its first character. -/
theorem stringsIndex_pos (s substr : String) (hc : stringsIndex s substr ≠ -1)
    (hp : substr.data.isPrefixOf s.data = false) : stringsIndex s substr > 0 := by
  unfold stringsIndex at hc ⊢
  cases hs : s.data with
  | nil =>
    rw [hs] at hc hp
    unfold indexFrom at hc
    simp [hp] at hc
  | cons c cs =>
    rw [hs] at hc hp
    unfold indexFrom at hc ⊢
    simp only [hp, Bool.false_eq_true, if_false] at hc ⊢
    rcases indexFrom_ge substr.data cs (0 + 1) with h | h
    · exact absurd h hc
    · have h1 : ((0 + 1 : Nat) : Int) = 1 := by norm_num
      rw [h1] at h
      omega

/-- C12: a request whose URL contains the marker `_ping` (and, as every
request URL, does not begin with it) proceeds: status and body stay
untouched, whatever the method, the `Authorization` header, the `:splat`
parameter and the stores. -/
theorem FilterAuth_ping_proceeds (st : Stores) (ctx : Context)
    (hcontains : stringsIndex ctx.URL "_ping" ≠ -1)
    (hstart : "_ping".data.isPrefixOf ctx.URL.data = false) :
    FilterAuth st ctx = some ctx := by
  have hping : stringsIndex ctx.URL "_ping" > 0 := stringsIndex_pos ctx.URL "_ping" hcontains hstart
  unfold FilterAuth
  simp [hping, labelAUTH_true]

/-- C12, at the example: the liveness check without an `Authorization` header. -/
theorem FilterAuth_ping_proceeds_witness : FilterAuth exStores exPing = some exPing :=
  FilterAuth_ping_proceeds exStores exPing (by decide) (by decide)

/-- The value of `FilterAuth` once the liveness test has failed, the names
have been extracted and the credentials have resolved to a user. -/
theorem FilterAuth_resolved (st : Stores) (ctx : Context)
    (namespace_ repository username passwd : String) (user : User)
    (hping : ¬ stringsIndex ctx.URL "_ping" > 0)
    (hns : extractNames ctx = some (namespace_, repository))
    (hlen : ctx.Authorization.length ≠ 0)
    (hbasic : stringsIndex ctx.Authorization "Basic" ≠ -1)
    (hdec : st.DecodeBasicAuth ctx.Authorization = some (username, passwd))
    (huser : st.UserGet username passwd = some user) :
    FilterAuth st ctx =
      if isImageResource ctx.URL = true then some ctx
      else if user.Username = namespace_ then some ctx
      else labelAUTH ctx (checkOrgRepositoryPermission st user namespace_ repository
        (getPermission ctx.Method)) := by
  unfold FilterAuth
  have hgate : (ctx.Authorization.length == 0 ||
      stringsIndex ctx.Authorization "Basic" == -1) = false := by
    simp [hlen, hbasic]
  simp only [hping, if_false, hns, hdec, huser, hgate, Bool.false_eq_true]
  by_cases himg : isImageResource ctx.URL = true
  · simp [himg, labelAUTH_true]
  · by_cases hown : user.Username = namespace_
    · simp [himg, hown, labelAUTH_true]
    · simp [himg, hown]

/-- The value of `FilterAuth` when the credentials do not resolve. -/
theorem FilterAuth_unresolved (st : Stores) (ctx : Context)
    (namespace_ repository : String)
    (hping : ¬ stringsIndex ctx.URL "_ping" > 0)
    (hns : extractNames ctx = some (namespace_, repository))
    (hbad : (ctx.Authorization.length = 0 ∨ stringsIndex ctx.Authorization "Basic" = -1) ∨
      st.DecodeBasicAuth ctx.Authorization = none ∨
      ∃ username passwd, st.DecodeBasicAuth ctx.Authorization = some (username, passwd) ∧
        st.UserGet username passwd = none) :
    FilterAuth st ctx = labelAUTH ctx false := by
  unfold FilterAuth
  simp only [hping, if_false, hns]
  by_cases hgate : (ctx.Authorization.length == 0 ||
      stringsIndex ctx.Authorization "Basic" == -1) = true
  · simp only [hgate, if_true]
  · have hgate2 : ¬ (ctx.Authorization.length = 0 ∨
        stringsIndex ctx.Authorization "Basic" = -1) := by
      simpa using hgate
    simp only [hgate, Bool.false_eq_true, if_false]
    rcases hbad with h | h | ⟨u, p, h1, h2⟩
    · exact absurd h hgate2
    · simp only [h]
    · simp only [h1, h2]

/-- C14: `FilterAuth` fails at run time, leaves status and body untouched, or
writes the one denial (status 404, body `errors` with the unauthorized
descriptor alone); it fails only when the name extraction does; past the
liveness test the denial is written for a missing or non-basic header, for a
header that does not decode, for an unknown user and for a refused
organization check, and nothing is written when the request is for an image
resource, for the user's own namespace or granted by the organization check;
a liveness request is never written to. -/
theorem FilterAuth_response (st : Stores) (ctx : Context) :
    let denied : Context := { ctx with
      Status := some 404,
      Body := some [("errors", [⟨1, "UNAUTHORIZED",
        "access to the requested resource is not authorized",
        "The access controller denied access for the operation on\n    a resource. Often this will be accompanied by a 401 Unauthorized\n    response status."⟩])] }
    (FilterAuth st ctx = none ∨ FilterAuth st ctx = some ctx ∨
      FilterAuth st ctx = some denied) ∧
    (FilterAuth st ctx = none ↔
      (¬ stringsIndex ctx.URL "_ping" > 0 ∧ extractNames ctx = none)) ∧
    (stringsIndex ctx.URL "_ping" > 0 → FilterAuth st ctx = some ctx) ∧
    (∀ namespace_ repository : String,
      ¬ stringsIndex ctx.URL "_ping" > 0 →
      extractNames ctx = some (namespace_, repository) →
      ((ctx.Authorization.length = 0 ∨ stringsIndex ctx.Authorization "Basic" = -1) →
        FilterAuth st ctx = some denied) ∧
      (ctx.Authorization.length ≠ 0 → stringsIndex ctx.Authorization "Basic" ≠ -1 →
        (st.DecodeBasicAuth ctx.Authorization = none → FilterAuth st ctx = some denied) ∧
        (∀ username passwd : String,
          st.DecodeBasicAuth ctx.Authorization = some (username, passwd) →
          (st.UserGet username passwd = none → FilterAuth st ctx = some denied) ∧
          (∀ user : User, st.UserGet username passwd = some user →
            (isImageResource ctx.URL = false → user.Username ≠ namespace_ →
              checkOrgRepositoryPermission st user namespace_ repository
                (getPermission ctx.Method) = false →
              FilterAuth st ctx = some denied) ∧
            ((isImageResource ctx.URL = true ∨ user.Username = namespace_ ∨
              checkOrgRepositoryPermission st user namespace_ repository
                (getPermission ctx.Method) = true) →
              FilterAuth st ctx = some ctx))))) := by
  intro denied
  have hdenied : labelAUTH ctx false = some denied := labelAUTH_false ctx
  have hpingcase : stringsIndex ctx.URL "_ping" > 0 → FilterAuth st ctx = some ctx := by
    intro hping
    unfold FilterAuth
    simp [hping, labelAUTH_true]
  have hmain : ∀ namespace_ repository : String,
      ¬ stringsIndex ctx.URL "_ping" > 0 →
      extractNames ctx = some (namespace_, repository) →
      ((ctx.Authorization.length = 0 ∨ stringsIndex ctx.Authorization "Basic" = -1) →
        FilterAuth st ctx = some denied) ∧
      (ctx.Authorization.length ≠ 0 → stringsIndex ctx.Authorization "Basic" ≠ -1 →
        (st.DecodeBasicAuth ctx.Authorization = none → FilterAuth st ctx = some denied) ∧
        (∀ username passwd : String,
          st.DecodeBasicAuth ctx.Authorization = some (username, passwd) →
          (st.UserGet username passwd = none → FilterAuth st ctx = some denied) ∧
          (∀ user : User, st.UserGet username passwd = some user →
            (isImageResource ctx.URL = false → user.Username ≠ namespace_ →
              checkOrgRepositoryPermission st user namespace_ repository
                (getPermission ctx.Method) = false →
              FilterAuth st ctx = some denied) ∧
            ((isImageResource ctx.URL = true ∨ user.Username = namespace_ ∨
              checkOrgRepositoryPermission st user namespace_ repository
                (getPermission ctx.Method) = true) →
              FilterAuth st ctx = some ctx)))) := by
    intro namespace_ repository hping hns
    refine ⟨?_, ?_⟩
    · intro h
      rw [FilterAuth_unresolved st ctx namespace_ repository hping hns (Or.inl h), hdenied]
    · intro hlen hbasic
      refine ⟨?_, ?_⟩
      · intro h
        rw [FilterAuth_unresolved st ctx namespace_ repository hping hns (Or.inr (Or.inl h)),
          hdenied]
      · intro username passwd hdec
        refine ⟨?_, ?_⟩
        · intro h
          rw [FilterAuth_unresolved st ctx namespace_ repository hping hns
            (Or.inr (Or.inr ⟨username, passwd, hdec, h⟩)), hdenied]
        · intro user huser
          have hres := FilterAuth_resolved st ctx namespace_ repository username passwd user
            hping hns hlen hbasic hdec huser
          refine ⟨?_, ?_⟩
          · intro himg hown hchk
            rw [hres, hchk, hdenied]
            simp [himg, hown]
          · intro h
            rw [hres]
            rcases h with h | h | h
            · simp [h]
            · simp [h]
            · simp [h, labelAUTH_true]
  have hnone : FilterAuth st ctx = none ↔
      (¬ stringsIndex ctx.URL "_ping" > 0 ∧ extractNames ctx = none) := by
    constructor
    · intro h
      by_cases hping : stringsIndex ctx.URL "_ping" > 0
      · rw [hpingcase hping] at h
        exact absurd h (by simp)
      · refine ⟨hping, ?_⟩
        cases hns : extractNames ctx with
        | none => rfl
        | some nr =>
          obtain ⟨n, r⟩ := nr
          exfalso
          by_cases hgate : ctx.Authorization.length = 0 ∨
              stringsIndex ctx.Authorization "Basic" = -1
          · rw [((hmain n r hping hns).1 hgate)] at h
            exact absurd h (by simp)
          · have hlen : ctx.Authorization.length ≠ 0 := fun hc => hgate (Or.inl hc)
            have hbasic : stringsIndex ctx.Authorization "Basic" ≠ -1 :=
              fun hc => hgate (Or.inr hc)
            have h2 := (hmain n r hping hns).2 hlen hbasic
            cases hdec : st.DecodeBasicAuth ctx.Authorization with
            | none =>
              rw [h2.1 hdec] at h
              exact absurd h (by simp)
            | some up =>
              obtain ⟨u, p⟩ := up
              cases huser : st.UserGet u p with
              | none =>
                rw [(h2.2 u p hdec).1 huser] at h
                exact absurd h (by simp)
              | some user =>
                rw [FilterAuth_resolved st ctx n r u p user hping hns hlen hbasic hdec huser] at h
                split at h
                · exact absurd h (by simp)
                · split at h
                  · exact absurd h (by simp)
                  · cases hchk : checkOrgRepositoryPermission st user n r
                        (getPermission ctx.Method) with
                    | false =>
                      rw [hchk, hdenied] at h
                      exact absurd h (by simp)
                    | true =>
                      rw [hchk, labelAUTH_true] at h
                      exact absurd h (by simp)
    · rintro ⟨hping, hns⟩
      unfold FilterAuth
      simp only [hping, if_false, hns]
  refine ⟨?_, hnone, hpingcase, hmain⟩
  by_cases hping : stringsIndex ctx.URL "_ping" > 0
  · right; left; exact hpingcase hping
  · cases hns : extractNames ctx with
    | none => left; exact hnone.mpr ⟨hping, hns⟩
    | some nr =>
      obtain ⟨n, r⟩ := nr
      right
      by_cases hgate : ctx.Authorization.length = 0 ∨
          stringsIndex ctx.Authorization "Basic" = -1
      · right; exact (hmain n r hping hns).1 hgate
      · have hlen : ctx.Authorization.length ≠ 0 := fun hc => hgate (Or.inl hc)
        have hbasic : stringsIndex ctx.Authorization "Basic" ≠ -1 :=
          fun hc => hgate (Or.inr hc)
        have h2 := (hmain n r hping hns).2 hlen hbasic
        cases hdec : st.DecodeBasicAuth ctx.Authorization with
        | none => right; exact h2.1 hdec
        | some up =>
          obtain ⟨u, p⟩ := up
          cases huser : st.UserGet u p with
          | none => right; exact (h2.2 u p hdec).1 huser
          | some user =>
            have h3 := (h2.2 u p hdec).2 user huser
            by_cases himg : isImageResource ctx.URL = true
            · left; exact h3.2 (Or.inl himg)
            · by_cases hown : user.Username = n
              · left; exact h3.2 (Or.inr (Or.inl hown))
              · cases hchk : checkOrgRepositoryPermission st user n r
                    (getPermission ctx.Method) with
                | false =>
                  right
                  exact h3.1 (by simpa using himg) hown hchk
                | true => left; exact h3.2 (Or.inr (Or.inr hchk))

/-! ## `FilterAuth`: the names taken from the path parameter -/

/-- C15, at two version-1 requests whose URL also holds `v2`: the URL
contains the marker `v1` and the second and third segments of the path
parameter are `bob`, `v2app` (`acme`, `v2app`), but the second `if` overwrites
what the first has set and the names used are the first and second segments.
So `bob` is refused on the namespace `bob`, which the names of the first `if`
allow, and the user `repositories` is allowed on `acme/v2app` without any
organization check, which the names of the first `if` refuse. -/
theorem FilterAuth_names_v1_overwritten :
    (stringsIndex exV1V2.URL "v1" > 0 ∧
      stringsSplit exV1V2.Splat "/" = ["repositories", "bob", "v2app", ""] ∧
      extractNames exV1V2 = some ("repositories", "bob") ∧
      exStores.DecodeBasicAuth exV1V2.Authorization = some ("bob", "secret") ∧
      exStores.UserGet "bob" "secret" = some ⟨"bob", ["org-1"], ["t1", "t2"]⟩ ∧
      FilterAuth exStores exV1V2 = some { exV1V2 with
        Status := some 404,
        Body := some [("errors", [⟨1, "UNAUTHORIZED",
          "access to the requested resource is not authorized",
          "The access controller denied access for the operation on\n    a resource. Often this will be accompanied by a 401 Unauthorized\n    response status."⟩])] }) ∧
    (stringsIndex exV1Squat.URL "v1" > 0 ∧
      stringsSplit exV1Squat.Splat "/" = ["repositories", "acme", "v2app", ""] ∧
      extractNames exV1Squat = some ("repositories", "acme") ∧
      exStoresSquat.DecodeBasicAuth exV1Squat.Authorization = some ("repositories", "pw") ∧
      exStoresSquat.UserGet "repositories" "pw" = some ⟨"repositories", [], []⟩ ∧
      FilterAuth exStoresSquat exV1Squat = some exV1Squat ∧
      checkOrgRepositoryPermission exStoresSquat ⟨"repositories", [], []⟩ "acme" "v2app"
        (getPermission "PUT") = false) := by
  decide

/-- Where the URL holds exactly one of the markers `v1` and `v2` after its
first character, a request that reaches the authorization decision (liveness
test failed, credentials resolved, no image resource) is decided with the
second and third segment of the path parameter for `v1`, and with the first
and second segment for `v2`. -/
theorem FilterAuth_names_single_marker (st : Stores) (ctx : Context)
    (username passwd : String) (user : User)
    (hping : ¬ stringsIndex ctx.URL "_ping" > 0)
    (hlen : ctx.Authorization.length ≠ 0)
    (hbasic : stringsIndex ctx.Authorization "Basic" ≠ -1)
    (hdec : st.DecodeBasicAuth ctx.Authorization = some (username, passwd))
    (huser : st.UserGet username passwd = some user)
    (himg : isImageResource ctx.URL = false) :
    (∀ (s0 s1 s2 : String) (rest : List String),
      stringsIndex ctx.URL "v1" > 0 → ¬ stringsIndex ctx.URL "v2" > 0 →
      stringsSplit ctx.Splat "/" = s0 :: s1 :: s2 :: rest →
      extractNames ctx = some (s1, s2) ∧
      FilterAuth st ctx =
        if user.Username = s1 then some ctx
        else labelAUTH ctx
          (checkOrgRepositoryPermission st user s1 s2 (getPermission ctx.Method))) ∧
    (∀ (s0 s1 : String) (rest : List String),
      stringsIndex ctx.URL "v2" > 0 → ¬ stringsIndex ctx.URL "v1" > 0 →
      stringsSplit ctx.Splat "/" = s0 :: s1 :: rest →
      extractNames ctx = some (s0, s1) ∧
      FilterAuth st ctx =
        if user.Username = s0 then some ctx
        else labelAUTH ctx
          (checkOrgRepositoryPermission st user s0 s1 (getPermission ctx.Method))) := by
  refine ⟨?_, ?_⟩
  · intro s0 s1 s2 rest hv1 hv2 hsplit
    have hns : extractNames ctx = some (s1, s2) := by
      simp [extractNames, hv1, hv2, hsplit]
    refine ⟨hns, ?_⟩
    rw [FilterAuth_resolved st ctx s1 s2 username passwd user hping hns hlen hbasic hdec huser]
    simp [himg]
  · intro s0 s1 rest hv2 hv1 hsplit
    have hns : extractNames ctx = some (s0, s1) := by
      simp [extractNames, hv1, hv2, hsplit]
    refine ⟨hns, ?_⟩
    rw [FilterAuth_resolved st ctx s0 s1 username passwd user hping hns hlen hbasic hdec huser]
    simp [himg]

/-- The single-marker statement at two examples: `bob` pushes to `acme/app`
through a version-1 URL and reads `acme/app` through a version-2 URL. -/
theorem FilterAuth_names_single_marker_witness :
    (extractNames exV1Acme = some ("acme", "app") ∧
      FilterAuth exStores exV1Acme =
        if "bob" = "acme" then some exV1Acme
        else labelAUTH exV1Acme (checkOrgRepositoryPermission exStores
          ⟨"bob", ["org-1"], ["t1", "t2"]⟩ "acme" "app" (getPermission "PUT"))) ∧
    (extractNames exV2Acme = some ("acme", "app") ∧
      FilterAuth exStores exV2Acme =
        if "bob" = "acme" then some exV2Acme
        else labelAUTH exV2Acme (checkOrgRepositoryPermission exStores
          ⟨"bob", ["org-1"], ["t1", "t2"]⟩ "acme" "app" (getPermission "GET"))) :=
  ⟨(FilterAuth_names_single_marker exStores exV1Acme "bob" "secret"
      ⟨"bob", ["org-1"], ["t1", "t2"]⟩ (by decide) (by decide) (by decide) rfl rfl
      (by decide)).1 "repositories" "acme" "app" [""] (by decide) (by decide) (by decide),
   (FilterAuth_names_single_marker exStores exV2Acme "bob" "secret"
      ⟨"bob", ["org-1"], ["t1", "t2"]⟩ (by decide) (by decide) (by decide) rfl rfl
      (by decide)).2 "acme" "app" ["manifests", "latest"] (by decide) (by decide) (by decide)⟩

/-! ## `manifestsConvertV1`: names, write sequence, runtime failures -/

theorem assert_some_bind {α β : Type} (a : α) (f : α → Conv β) :
    (Conv.assert (some a) >>= f) = f a := by
  funext t
  show Conv.bind (Conv.assert (some a)) f t = f a t
  simp [Conv.bind, Conv.assert]

theorem assert_none_bind {α β : Type} (f : α → Conv β) :
    (Conv.assert (none : Option α) >>= f) = fun _ => ([], Res.panic) := by
  funext t
  show Conv.bind (Conv.assert none) f t = _
  simp [Conv.bind, Conv.assert]

theorem check_ok_bind {α β : Type} (a : α) (f : α → Conv β) :
    (Conv.check (Except.ok a) >>= f) = f a := by
  funext t
  show Conv.bind (Conv.check (Except.ok a)) f t = f a t
  simp [Conv.bind, Conv.check]

theorem check_error_bind {α β : Type} (e : Error) (f : α → Conv β) :
    (Conv.check (Except.error e : Except Error α) >>= f) = fun _ => ([], Res.err e) := by
  funext t
  show Conv.bind (Conv.check (Except.error e)) f t = _
  simp [Conv.bind, Conv.check]

theorem assertString_eq_some (x : JValue) (s : String) (h : assertString x = some s) :
    x = JValue.string s := by
  cases x <;> simp [assertString] at h
  rw [h]

theorem assertSlice_eq_some (x : JValue) (l : List JValue) (h : assertSlice x = some l) :
    x = JValue.array l := by
  cases x <;> simp [assertSlice] at h
  rw [h]

theorem allWrites_bind {α β : Type} {P : Write → Prop} {m : Conv α} {f : α → Conv β}
    (hm : allWrites P m) (hf : ∀ a, allWrites P (f a)) : allWrites P (m >>= f) := by
  intro t w hw
  change w ∈ (Conv.bind m f t).1 at hw
  unfold Conv.bind at hw
  have hmt := hm t
  rcases hmt2 : m t with ⟨ws, r⟩
  rw [hmt2] at hw hmt
  cases r with
  | ok a =>
    simp only [List.mem_append] at hw
    rcases hw with h | h
    · exact hmt w h
    · exact hf a (t ++ ws) w h
  | err e => exact hmt w hw
  | panic => exact hmt w hw

theorem allWrites_silent {α : Type} (P : Write → Prop) (m : Conv α)
    (h : ∀ t, (m t).1 = []) : allWrites P m := by
  intro t w hw
  rw [h t] at hw
  exact absurd hw (List.not_mem_nil w)

theorem allWrites_assert {α : Type} (P : Write → Prop) (o : Option α) :
    allWrites P (Conv.assert o) :=
  allWrites_silent P _ (fun _ => by cases o <;> rfl)

theorem allWrites_check {α : Type} (P : Write → Prop) (x : Except Error α) :
    allWrites P (Conv.check x) :=
  allWrites_silent P _ (fun _ => by cases x <;> rfl)

theorem allWrites_pure {α : Type} (P : Write → Prop) (a : α) :
    allWrites P (pure a : Conv α) :=
  allWrites_silent P _ (fun _ => rfl)

theorem allWrites_call (P : Write → Prop) (env : ConvertEnv) (w : Write) (h : P w) :
    allWrites P (Conv.call env w) := by
  intro t x hx
  unfold Conv.call at hx
  have hx2 : x = w := by
    cases hS : env.Store t w <;> rw [hS] at hx <;> simpa using hx
  rw [hx2]
  exact h

theorem allWrites_ite {α : Type} (P : Write → Prop) (c : Prop) [Decidable c] {a b : Conv α}
    (ha : allWrites P a) (hb : allWrites P b) : allWrites P (if c then a else b) := by
  split
  · exact ha
  · exact hb

/-- Every repository-store write of the loop body carries the two names the
body was given. -/
theorem loopBody_repoArgs (env : ConvertEnv) (manifest : List (String × JValue)) (tag : JValue)
    (namespace_ repository : String) (k : Nat) :
    allWrites (fun w => ∀ a b, repoArgs w = some (a, b) → a = namespace_ ∧ b = repository)
      (loopBody env manifest tag namespace_ repository k) := by
  unfold loopBody
  repeat' first
    | exact allWrites_assert _ _
    | exact allWrites_check _ _
    | exact allWrites_pure _ _
    | (refine allWrites_call _ env _ ?_; simp [repoArgs])
    | refine allWrites_bind ?_ (fun _ => ?_)
    | refine allWrites_ite _ _ ?_ ?_

theorem loopFrom_repoArgs (env : ConvertEnv) (manifest : List (String × JValue)) (tag : JValue)
    (namespace_ repository : String) (k : Nat) :
    allWrites (fun w => ∀ a b, repoArgs w = some (a, b) → a = namespace_ ∧ b = repository)
      (loopFrom env manifest tag namespace_ repository k) := by
  induction k with
  | zero => exact allWrites_pure _ _
  | succ k ih =>
    unfold loopFrom
    exact allWrites_bind (loopBody_repoArgs env manifest tag namespace_ repository (k + 1))
      (fun _ => ih)

/-- C16: every repository-store write (`PutJSONFromManifests`,
`PutTagFromManifests`) of a call carries, as namespace and as repository, the
first `/`-separated segment of the `name` field of the decoded manifest; and
at the scenario of the specification, `name` is `alice/app` and the write is
made with namespace `alice` and repository `alice`. -/
theorem manifestsConvertV1_names (env : ConvertEnv) (data : String) :
    (∀ w ∈ (manifestsConvertV1 env data).1, ∀ a b, repoArgs w = some (a, b) →
      ∃ manifest name, env.Unmarshal data = Except.ok manifest ∧
        mapIndex manifest "name" = JValue.string name ∧
        (stringsSplit name "/")[0]? = some a ∧ b = a) ∧
    ((exUnmarshal exManifestText).toOption.map (fun m => assertString (mapIndex m "name"))
        = some (some "alice/app") ∧
      stringsSplit "alice/app" "/" = ["alice", "app"] ∧
      Write.PutJSONFromManifests [("id", "img1")] "alice" "alice"
        ∈ (manifestsConvertV1 exEnv exManifestText).1) := by
  refine ⟨?_, by decide⟩
  intro w hw a b hab
  unfold manifestsConvertV1 manifestsConvertV1Conv at hw
  cases hU : env.Unmarshal data with
  | error e =>
    rw [hU, check_error_bind] at hw
    exact absurd hw (List.not_mem_nil w)
  | ok manifest =>
    rw [hU, check_ok_bind] at hw
    cases hn : assertString (mapIndex manifest "name") with
    | none =>
      simp only [hn, assert_none_bind] at hw
      exact absurd hw (List.not_mem_nil w)
    | some name =>
      simp only [hn, assert_some_bind] at hw
      cases hs : (stringsSplit name "/")[0]? with
      | none =>
        simp only [hs, assert_none_bind] at hw
        exact absurd hw (List.not_mem_nil w)
      | some seg =>
        simp only [hs, assert_some_bind] at hw
        cases hh : assertSlice (mapIndex manifest "history") with
        | none =>
          simp only [hh, assert_none_bind] at hw
          exact absurd hw (List.not_mem_nil w)
        | some history =>
          simp only [hh, assert_some_bind] at hw
          have h := loopFrom_repoArgs env manifest (mapIndex manifest "tag") seg seg
            (history.length - 1) [] w hw a b hab
          refine ⟨manifest, name, rfl, assertString_eq_some _ _ hn, ?_, ?_⟩
          · rw [h.1]; exact hs
          · rw [h.1, h.2]

theorem accepted_of_all (S : List Write → Write → Option Error) (h : ∀ t w, S t w = none)
    (t ws : List Write) : accepted S t ws := by
  induction ws generalizing t with
  | nil => trivial
  | cons w ws ih => exact ⟨h t w, ih (t ++ [w])⟩

/-- The loop from the counter `n` on, for well-formed entries at `1..n` and
stores that accept every write: the five writes of each index, from `n` down
to `1`, and the loop ends normally. -/
theorem loopFrom_writes (env : ConvertEnv) (manifest : List (String × JValue)) (tag : JValue)
    (namespace_ repository : String) (blob id sha : Nat → String) (size : Nat → Int)
    (hacc : ∀ t w, env.Store t w = none) (n : Nat)
    (hwf : ∀ k, 0 < k → k ≤ n →
      WellFormedEntry env manifest k (blob k) (id k) (sha k) (size k))
    (t : List Write) :
    loopFrom env manifest tag namespace_ repository n t
      = ((List.iota n).flatMap
          (fun k => indexWrites env namespace_ repository (id k) (blob k) (sha k) (size k)),
         Res.ok ()) := by
  induction n generalizing t with
  | zero => rfl
  | succ n ih =>
    obtain ⟨history, fsLayers, vmap, image, lmap, tarsum, hh, hv, hb, hu, hid, hsz, hf, hl, hs,
      hsha⟩ := hwf (n + 1) (Nat.succ_pos n) (le_refl _)
    have hbody := loopBody_writes env manifest tag namespace_ repository (n + 1) t history
      fsLayers vmap image lmap (blob (n + 1)) (id (n + 1)) tarsum (sha (n + 1)) (size (n + 1))
      (Nat.succ_pos n) hh hv hb hu hid hsz hf hl hs hsha (accepted_of_all env.Store hacc _ _)
    have ih2 := fun t2 => ih (fun k hk hkn => hwf k hk (Nat.le_succ_of_le hkn)) t2
    unfold loopFrom
    show Conv.bind (loopBody env manifest tag namespace_ repository (n + 1))
      (fun _ => loopFrom env manifest tag namespace_ repository n) t = _
    unfold Conv.bind
    rw [hbody]
    simp only [ih2, List.iota, List.flatMap_cons, indexWrites]

/-- The writes of a call for a manifest with well-formed entries at the indices
`1..N-1`, against stores that accept every write. -/
theorem convert_writes_of_wellFormed (env : ConvertEnv) (data name ns : String)
    (manifest : List (String × JValue)) (history : List JValue)
    (blob id sha : Nat → String) (size : Nat → Int)
    (hacc : ∀ t w, env.Store t w = none)
    (hU : env.Unmarshal data = Except.ok manifest)
    (hname : mapIndex manifest "name" = JValue.string name)
    (hns : (stringsSplit name "/")[0]? = some ns)
    (hh : mapIndex manifest "history" = JValue.array history)
    (hwf : ∀ k, 0 < k → k < history.length →
      WellFormedEntry env manifest k (blob k) (id k) (sha k) (size k)) :
    manifestsConvertV1 env data
      = ((List.iota (history.length - 1)).flatMap
          (fun k => indexWrites env ns ns (id k) (blob k) (sha k) (size k)), Res.ok ()) := by
  unfold manifestsConvertV1 manifestsConvertV1Conv
  simp only [hU, check_ok_bind, hname, assertString, assert_some_bind, hns, hh, assertSlice]
  exact loopFrom_writes env manifest _ ns ns blob id sha size hacc (history.length - 1)
    (fun k hk hkn => hwf k hk (by omega)) []

/-- C17: for a manifest that decodes, with a string `name`, a `history` list
of length `N` and well-formed entries at the indices `1..N-1`, and stores
that accept every write, the writes of the call are the five writes of each
index from `N-1` down to `1`, in this order, and the call returns `nil`; in
particular there is no write for index `0`, and none at all when `N ≤ 1`. -/
theorem manifestsConvertV1_write_sequence (env : ConvertEnv) (data name ns : String)
    (manifest : List (String × JValue)) (history : List JValue)
    (blob id sha : Nat → String) (size : Nat → Int)
    (hacc : ∀ t w, env.Store t w = none)
    (hU : env.Unmarshal data = Except.ok manifest)
    (hname : mapIndex manifest "name" = JValue.string name)
    (hns : (stringsSplit name "/")[0]? = some ns)
    (hh : mapIndex manifest "history" = JValue.array history)
    (hwf : ∀ k, 0 < k → k < history.length →
      WellFormedEntry env manifest k (blob k) (id k) (sha k) (size k)) :
    manifestsConvertV1 env data
      = ((List.iota (history.length - 1)).flatMap
          (fun k => indexWrites env ns ns (id k) (blob k) (sha k) (size k)), Res.ok ()) ∧
    (history.length ≤ 1 → manifestsConvertV1 env data = ([], Res.ok ())) := by
  have hmain := convert_writes_of_wellFormed env data name ns manifest history blob id sha size
    hacc hU hname hns hh hwf
  refine ⟨hmain, ?_⟩
  intro hN
  rw [hmain]
  have h0 : history.length - 1 = 0 := by omega
  rw [h0]
  rfl

/-- C17, at the scenario of the specification (`N = 2`): the five writes for
index `1` (`img1`) and nothing else. -/
theorem manifestsConvertV1_write_sequence_witness :
    manifestsConvertV1 exEnv exManifestText
      = (indexWrites exEnv "alice" "alice" "img1" exBlob1 "bbb" 20, Res.ok ()) :=
  (manifestsConvertV1_write_sequence exEnv exManifestText "alice/app" "alice"
    [("name", JValue.string "alice/app"), ("tag", JValue.string "latest"),
     ("history", JValue.array
        [JValue.object [("v1Compatibility", JValue.string exBlob0)],
         JValue.object [("v1Compatibility", JValue.string exBlob1)]]),
     ("fsLayers", JValue.array
        [JValue.object [("blobSum", JValue.string "sha256:aaa")],
         JValue.object [("blobSum", JValue.string "sha256:bbb")]])]
    [JValue.object [("v1Compatibility", JValue.string exBlob0)],
     JValue.object [("v1Compatibility", JValue.string exBlob1)]]
    (fun _ => exBlob1) (fun _ => "img1") (fun _ => "bbb") (fun _ => 20)
    (fun _ _ => rfl) rfl rfl (by decide) rfl
    (fun k hk hlt => by
      have hk1 : k = 1 := by
        have : k < 2 := hlt
        omega
      subst hk1
      exact ⟨_, _, _, [("id", JValue.string "img1"), ("Size", JValue.number 20)], _, _,
        rfl, rfl, rfl, rfl, rfl, rfl, rfl, rfl, rfl, by decide⟩)).1

theorem splitGo_ne_nil (sep : List Char) (s : List Char) :
    ∀ (skip : Nat) (cur : List Char), splitGo sep skip cur s ≠ [] := by
  induction s with
  | nil => intro skip cur; simp [splitGo]
  | cons c cs ih =>
    intro skip cur
    cases skip with
    | zero =>
      unfold splitGo
      split
      · simp
      · exact ih 0 (c :: cur)
    | succ k =>
      unfold splitGo
      exact ih k cur

/-- Splitting at a one-character separator that occurs gives two pieces at least. -/
theorem splitGo_two (c : Char) (s : List Char) :
    ∀ cur : List Char, c ∈ s → 2 ≤ (splitGo [c] 0 cur s).length := by
  induction s with
  | nil => intro cur h; exact absurd h (List.not_mem_nil c)
  | cons x xs ih =>
    intro cur h
    unfold splitGo
    by_cases hx : c = x
    · subst hx
      have hp : List.isPrefixOf [c] (c :: xs) = true := by simp [List.isPrefixOf]
      rw [if_pos hp, List.length_cons]
      have hne := splitGo_ne_nil [c] xs ([c].length - 1) []
      have hpos : 0 < (splitGo [c] ([c].length - 1) [] xs).length :=
        List.length_pos.mpr hne
      omega
    · have hp : List.isPrefixOf [c] (x :: xs) = false := by
        simp [List.isPrefixOf, hx]
      rw [if_neg (by simp [hp])]
      have hmem : c ∈ xs := by
        rcases List.mem_cons.mp h with h1 | h1
        · exact absurd h1 hx
        · exact h1
      exact ih (x :: cur) hmem

/-- A string that contains `:` has a second `:`-separated piece. -/
theorem stringsSplit_colon (s : String) (h : ':' ∈ s.data) :
    ∃ sha, (stringsSplit s ":")[1]? = some sha := by
  have h2 : 2 ≤ (stringsSplit s ":").length := by
    have : stringsSplit s ":" = splitGo [':'] 0 [] s.data := rfl
    rw [this]
    exact splitGo_two ':' s.data [] h
  have hlt : 1 < (stringsSplit s ":").length := by omega
  exact ⟨(stringsSplit s ":")[1], List.getElem?_eq_getElem hlt⟩

/-- A string always has a first `/`-separated piece. -/
theorem stringsSplit_head (s : String) : ∃ seg, (stringsSplit s "/")[0]? = some seg := by
  have hne : stringsSplit s "/" ≠ [] := by
    have : stringsSplit s "/" = splitGo ['/'] 0 [] s.data := rfl
    rw [this]
    exact splitGo_ne_nil _ _ _ _
  have hlt : 0 < (stringsSplit s "/").length := List.length_pos.mpr hne
  exact ⟨(stringsSplit s "/")[0], List.getElem?_eq_getElem hlt⟩

/-- Entries that are safe to process at an index are well formed there. -/
theorem safeEntry_wellFormed (env : ConvertEnv) (manifest : List (String × JValue)) (k : Nat)
    (h : SafeEntry env manifest k) :
    ∃ (blob id sha : String) (size : Int), WellFormedEntry env manifest k blob id sha size := by
  obtain ⟨history, fsLayers, vmap, image, lmap, blob, id, tarsum, size, hh, hv, hb, hu, hid,
    hsz, hf, hl, hs, hc⟩ := h
  obtain ⟨sha, hsha⟩ := stringsSplit_colon tarsum hc
  exact ⟨blob, id, sha, size, history, fsLayers, vmap, image, lmap, tarsum, hh, hv, hb, hu,
    hid, hsz, hf, hl, hs, hsha⟩

/-- C20: when the document decodes to an object whose `name` is a string and
whose `history` is a list, and for every index `k` in `1..N-1` the entries
`history[k]` and `fsLayers[k]` are as the precondition says, the call does not
fail at run time: it returns `nil`, or it returns the error of the write the
stores rejected, which is its last write. Nothing is asked of `tag`, of
`history[0]` or of `fsLayers[0]`. -/
theorem manifestsConvertV1_no_runtime_failure (env : ConvertEnv) (data name : String)
    (manifest : List (String × JValue)) (history : List JValue)
    (hU : env.Unmarshal data = Except.ok manifest)
    (hname : mapIndex manifest "name" = JValue.string name)
    (hh : mapIndex manifest "history" = JValue.array history)
    (hsafe : ∀ k, 0 < k → k < history.length → SafeEntry env manifest k) :
    (manifestsConvertV1 env data).2 ≠ Res.panic ∧
    ((manifestsConvertV1 env data).2 = Res.ok () ∨
      ∃ pre w e, (manifestsConvertV1 env data).1 = pre ++ [w] ∧ env.Store pre w = some e ∧
        (manifestsConvertV1 env data).2 = Res.err e) := by
  have hex : ∀ k, ∃ (blob id sha : String) (size : Int), 0 < k → k < history.length →
      WellFormedEntry { env with Store := fun _ _ => none } manifest k blob id sha size := by
    intro k
    by_cases hk : 0 < k ∧ k < history.length
    · obtain ⟨blob, id, sha, size, hw⟩ := safeEntry_wellFormed env manifest k (hsafe k hk.1 hk.2)
      exact ⟨blob, id, sha, size, fun _ _ => hw⟩
    · exact ⟨"", "", "", 0, fun h1 h2 => absurd ⟨h1, h2⟩ hk⟩
  choose blob id sha size hwf using hex
  obtain ⟨ns, hns⟩ := stringsSplit_head name
  have hgood := convert_writes_of_wellFormed { env with Store := fun _ _ => none } data
    name ns manifest history blob id sha size (fun _ _ => rfl) hU hname hns hh hwf
  have hdisj : (manifestsConvertV1 env data).2 = Res.ok () ∨
      ∃ pre w e, (manifestsConvertV1 env data).1 = pre ++ [w] ∧ env.Store pre w = some e ∧
        (manifestsConvertV1 env data).2 = Res.err e := by
    rcases manifestsConvertV1_rel env data with ⟨_, heq⟩ | ⟨pre, w, e, hws, _, hrej, hres, _⟩
    · left
      rw [heq, hgood]
    · right
      exact ⟨pre, w, e, hws, hrej, hres⟩
  refine ⟨?_, hdisj⟩
  rcases hdisj with h | ⟨_, _, e, _, _, h⟩
  · rw [h]; simp
  · rw [h]; simp

/-- C20, at a manifest without `tag` whose `history[0]` and `fsLayers[0]` are
`null`, against a store that rejects `PutChecksum`. -/
theorem manifestsConvertV1_no_runtime_failure_witness :
    (manifestsConvertV1 exEnvBare "bare").2 ≠ Res.panic ∧
    ((manifestsConvertV1 exEnvBare "bare").2 = Res.ok () ∨
      ∃ pre w e, (manifestsConvertV1 exEnvBare "bare").1 = pre ++ [w] ∧
        exEnvBare.Store pre w = some e ∧
        (manifestsConvertV1 exEnvBare "bare").2 = Res.err e) :=
  manifestsConvertV1_no_runtime_failure exEnvBare "bare" "alice/app"
    [("name", JValue.string "alice/app"),
     ("history", JValue.array
        [JValue.null, JValue.object [("v1Compatibility", JValue.string exBlob1)]]),
     ("fsLayers", JValue.array
        [JValue.null, JValue.object [("blobSum", JValue.string "sha256:bbb")]])]
    [JValue.null, JValue.object [("v1Compatibility", JValue.string exBlob1)]]
    rfl rfl rfl
    (fun k hk hlt => by
      have hk1 : k = 1 := by
        have : k < 2 := hlt
        omega
      subst hk1
      exact ⟨_, _, _, [("id", JValue.string "img1"), ("Size", JValue.number 20)], _, exBlob1,
        "img1", "sha256:bbb", 20, rfl, rfl, rfl, rfl, rfl, rfl, rfl, rfl, rfl, by decide⟩)

/-! ## `manifestsConvertV1`: decode and store failures -/

theorem accepted_split (S : List Write → Write → Option Error) (t ws₁ ws₂ : List Write)
    (h : accepted S t (ws₁ ++ ws₂)) : accepted S t ws₁ ∧ accepted S (t ++ ws₁) ws₂ := by
  induction ws₁ generalizing t with
  | nil => exact ⟨trivial, by simpa using h⟩
  | cons w ws ih =>
    obtain ⟨hw, hrest⟩ := h
    obtain ⟨h1, h2⟩ := ih (t ++ [w]) hrest
    exact ⟨⟨hw, h1⟩, by simpa using h2⟩

/-- The loop from the counter `m + j` on, when the entries at `j+1..j+m` are
well formed, the stores accept their writes, and the `v1Compatibility` string
at index `j` fails to decode: the writes of the indices `j+m` down to `j+1`,
and the loop ends with the error of the decoder. -/
theorem loopFrom_stops_at_blob (env : ConvertEnv) (manifest : List (String × JValue))
    (tag : JValue) (namespace_ repository : String) (blob id sha : Nat → String)
    (size : Nat → Int) (j : Nat) (history : List JValue) (vmap : List (String × JValue))
    (bad : String) (e : Error)
    (hj : 0 < j)
    (hh : mapIndex manifest "history" = JValue.array history)
    (hv : history[j]? = some (JValue.object vmap))
    (hb : mapIndex vmap "v1Compatibility" = JValue.string bad)
    (he : env.Unmarshal bad = Except.error e)
    (m : Nat)
    (hwf : ∀ k, j < k → k ≤ m + j →
      WellFormedEntry env manifest k (blob k) (id k) (sha k) (size k))
    (t : List Write)
    (hacc : accepted env.Store t ((List.iota m).flatMap (fun i =>
      indexWrites env namespace_ repository (id (i + j)) (blob (i + j)) (sha (i + j))
        (size (i + j))))) :
    loopFrom env manifest tag namespace_ repository (m + j) t
      = ((List.iota m).flatMap (fun i =>
          indexWrites env namespace_ repository (id (i + j)) (blob (i + j)) (sha (i + j))
            (size (i + j))), Res.err e) := by
  induction m generalizing t with
  | zero =>
    rw [Nat.zero_add]
    exact loopFrom_blob_error env manifest tag namespace_ repository j history vmap bad e t hj
      (by rw [hh]; rfl) hv hb he
  | succ m ih =>
    have hidx : m + 1 + j = (m + j) + 1 := by omega
    obtain ⟨history2, fsLayers, vmap2, image, lmap, tarsum, hh2, hv2, hb2, hu, hid, hsz, hf, hl,
      hs, hsha⟩ := hwf (m + 1 + j) (by omega) (le_refl _)
    rw [List.iota, List.flatMap_cons] at hacc
    obtain ⟨hacc1, hacc2⟩ := accepted_split env.Store t _ _ hacc
    rw [hidx] at hv2 hl
    have hbody := loopBody_writes env manifest tag namespace_ repository ((m + j) + 1) t history2
      fsLayers vmap2 image lmap (blob (m + 1 + j)) (id (m + 1 + j)) tarsum (sha (m + 1 + j))
      (size (m + 1 + j)) (Nat.succ_pos _) hh2 hv2 hb2 hu hid hsz hf hl hs hsha hacc1
    have ih2 := ih (fun k hk hkn => hwf k hk (by omega)) _ hacc2
    simp only [indexWrites, Nat.succ_eq_add_one] at ih2
    rw [hidx]
    unfold loopFrom
    show Conv.bind (loopBody env manifest tag namespace_ repository ((m + j) + 1))
      (fun _ => loopFrom env manifest tag namespace_ repository (m + j)) t = _
    unfold Conv.bind
    rw [hbody]
    simp only [ih2, List.iota, List.flatMap_cons, indexWrites, Nat.succ_eq_add_one]

/-- A call whose `v1Compatibility` string at the index `j` fails to decode,
after well-formed entries at the indices above `j` whose writes the stores
accept: the writes of those indices, then the error of the decoder. -/
theorem convert_stops_at_blob (env : ConvertEnv) (data name ns : String)
    (manifest : List (String × JValue)) (history : List JValue)
    (vmap : List (String × JValue)) (bad : String) (e : Error) (j : Nat)
    (blob id sha : Nat → String) (size : Nat → Int)
    (hU : env.Unmarshal data = Except.ok manifest)
    (hname : mapIndex manifest "name" = JValue.string name)
    (hns : (stringsSplit name "/")[0]? = some ns)
    (hh : mapIndex manifest "history" = JValue.array history)
    (hj : 0 < j) (hjN : j < history.length)
    (hv : history[j]? = some (JValue.object vmap))
    (hb : mapIndex vmap "v1Compatibility" = JValue.string bad)
    (he : env.Unmarshal bad = Except.error e)
    (hwf : ∀ k, j < k → k < history.length →
      WellFormedEntry env manifest k (blob k) (id k) (sha k) (size k))
    (hacc : accepted env.Store [] ((List.iota (history.length - 1 - j)).flatMap (fun i =>
      indexWrites env ns ns (id (i + j)) (blob (i + j)) (sha (i + j)) (size (i + j))))) :
    manifestsConvertV1 env data
      = ((List.iota (history.length - 1 - j)).flatMap (fun i =>
          indexWrites env ns ns (id (i + j)) (blob (i + j)) (sha (i + j)) (size (i + j))),
         Res.err e) := by
  have hN : history.length - 1 = (history.length - 1 - j) + j := by omega
  unfold manifestsConvertV1 manifestsConvertV1Conv
  simp only [hU, check_ok_bind, hname, assertString, assert_some_bind, hns, hh, assertSlice]
  have hloop := loopFrom_stops_at_blob env manifest (mapIndex manifest "tag") ns ns blob id sha
    size j history vmap bad e hj hh hv hb he (history.length - 1 - j)
    (fun k hk hkn => hwf k hk (by omega)) [] hacc
  rw [← hN] at hloop
  exact hloop

/-- C10: (1) a failing decode of the manifest ends the call with that error
and without a write; (2) when the `v1Compatibility` string at an index `j`
fails to decode, after well-formed entries at the indices above `j` whose
writes the stores accept, the call returns that error, and its writes are
those of the indices above `j` and nothing more; (3) a write the stores
reject is the last write of the call and its error is the result of the call;
(4) the writes of the call are a prefix of the writes of the call against
stores that accept every write; (5) inside the loop, a failing decode at the
counter `k` ends the loop with that error and without a further write,
whatever was written before (`t`). -/
theorem manifestsConvertV1_stops_at_failure (env : ConvertEnv) (data : String) :
    (∀ e, env.Unmarshal data = Except.error e →
      manifestsConvertV1 env data = ([], Res.err e)) ∧
    (∀ (manifest : List (String × JValue)) (name ns : String) (history : List JValue)
      (vmap : List (String × JValue)) (bad : String) (e : Error) (j : Nat)
      (blob id sha : Nat → String) (size : Nat → Int),
      env.Unmarshal data = Except.ok manifest →
      mapIndex manifest "name" = JValue.string name →
      (stringsSplit name "/")[0]? = some ns →
      mapIndex manifest "history" = JValue.array history →
      0 < j → j < history.length →
      history[j]? = some (JValue.object vmap) →
      mapIndex vmap "v1Compatibility" = JValue.string bad →
      env.Unmarshal bad = Except.error e →
      (∀ k, j < k → k < history.length →
        WellFormedEntry env manifest k (blob k) (id k) (sha k) (size k)) →
      accepted env.Store [] ((List.iota (history.length - 1 - j)).flatMap (fun i =>
        indexWrites env ns ns (id (i + j)) (blob (i + j)) (sha (i + j)) (size (i + j)))) →
      manifestsConvertV1 env data
        = ((List.iota (history.length - 1 - j)).flatMap (fun i =>
            indexWrites env ns ns (id (i + j)) (blob (i + j)) (sha (i + j)) (size (i + j))),
           Res.err e)) ∧
    (∀ pre w e, (pre ++ [w]) <+: (manifestsConvertV1 env data).1 →
      env.Store pre w = some e →
      manifestsConvertV1 env data = (pre ++ [w], Res.err e)) ∧
    (manifestsConvertV1 env data).1
      <+: (manifestsConvertV1 { env with Store := fun _ _ => none } data).1 ∧
    (∀ (manifest : List (String × JValue)) (tag : JValue) (namespace_ repository : String)
      (k : Nat) (history : List JValue) (vmap : List (String × JValue)) (blob : String)
      (e : Error) (t : List Write),
      0 < k →
      assertSlice (mapIndex manifest "history") = some history →
      history[k]? = some (JValue.object vmap) →
      mapIndex vmap "v1Compatibility" = JValue.string blob →
      env.Unmarshal blob = Except.error e →
      loopFrom env manifest tag namespace_ repository k t = ([], Res.err e)) := by
  refine ⟨manifestsConvertV1_decode_error env data, ?_, ?_, ?_, ?_⟩
  · intro manifest name ns history vmap bad e j blob id sha size hU hname hns hh hj hjN hv hb he
      hwf hacc
    exact convert_stops_at_blob env data name ns manifest history vmap bad e j blob id sha size
      hU hname hns hh hj hjN hv hb he hwf hacc
  · intro pre w e hpre hrej
    rcases manifestsConvertV1_rel env data with ⟨hacc, _⟩ | ⟨pre0, w0, e0, hws, hacc, hrej0, hres, _⟩
    · have := accepted_prefix env.Store [] _ pre w hacc hpre
      rw [List.nil_append, hrej] at this
      exact absurd this (by simp)
    · rw [hws] at hpre
      rcases List.prefix_concat_iff.mp hpre with heq | hlt
      · have hlen : pre.length = pre0.length := by
          have := congrArg List.length heq
          simpa using this
        have hp : pre = pre0 := (List.append_inj heq hlen).1
        have hw : [w] = [w0] := (List.append_inj heq hlen).2
        have hw2 : w = w0 := by simpa using hw
        subst hp; subst hw2
        have he : e = e0 := by
          rw [hrej] at hrej0
          exact Option.some.inj hrej0
        subst he
        exact Prod.ext hws hres
      · have := accepted_prefix env.Store [] _ pre w hacc hlt
        rw [List.nil_append, hrej] at this
        exact absurd this (by simp)
  · rcases manifestsConvertV1_rel env data with ⟨_, heq⟩ | ⟨pre0, w0, e0, hws, _, _, _, hpre⟩
    · rw [heq]
    · rw [hws]; exact hpre
  · intro manifest tag namespace_ repository k history vmap blob e t hk hh hv hb he
    exact loopFrom_blob_error env manifest tag namespace_ repository k history vmap blob e t
      hk hh hv hb he

/-- C10, at two examples: a manifest with three history entries whose
`v1Compatibility` at index `1` is not JSON gives the five writes of index `2`
and then the error of the decoder; the scenario against an image store that
rejects `PutLayer` ends with that write and returns its error. -/
theorem manifestsConvertV1_stops_at_failure_witness :
    manifestsConvertV1 exEnvBroken "broken"
      = (indexWrites exEnvBroken "alice" "alice" "img1" exBlob1 "bbb" 20,
         Res.err "invalid character") ∧
    manifestsConvertV1 exEnvFail exManifestText
      = ([Write.PutJSONFromManifests [("id", "img1")] "alice" "alice",
          Write.PutJSON "img1" exBlob1 2] ++
         [Write.PutLayer "img1" "/data/uuid/bbb/layer" true 20], Res.err "disk full") :=
  ⟨(manifestsConvertV1_stops_at_failure exEnvBroken "broken").2.1
    [("name", JValue.string "alice/app"), ("tag", JValue.string "latest"),
     ("history", JValue.array
        [JValue.object [("v1Compatibility", JValue.string exBlob0)],
         JValue.object [("v1Compatibility", JValue.string "oops")],
         JValue.object [("v1Compatibility", JValue.string exBlob1)]]),
     ("fsLayers", JValue.array
        [JValue.object [("blobSum", JValue.string "sha256:aaa")],
         JValue.object [("blobSum", JValue.string "sha256:ccc")],
         JValue.object [("blobSum", JValue.string "sha256:bbb")]])]
    "alice/app" "alice"
    [JValue.object [("v1Compatibility", JValue.string exBlob0)],
     JValue.object [("v1Compatibility", JValue.string "oops")],
     JValue.object [("v1Compatibility", JValue.string exBlob1)]]
    [("v1Compatibility", JValue.string "oops")] "oops" "invalid character" 1
    (fun _ => exBlob1) (fun _ => "img1") (fun _ => "bbb") (fun _ => 20)
    rfl rfl (by decide) rfl (by decide) (by decide) rfl rfl rfl
    (fun k hk hlt => by
      have hk2 : k = 2 := by
        have : k < 3 := hlt
        omega
      subst hk2
      exact ⟨_, _, _, [("id", JValue.string "img1"), ("Size", JValue.number 20)], _, _,
        rfl, rfl, rfl, rfl, rfl, rfl, rfl, rfl, rfl, by decide⟩)
    (accepted_of_all _ (fun _ _ => rfl) _ _),
   (manifestsConvertV1_stops_at_failure exEnvFail exManifestText).2.2.1
    [Write.PutJSONFromManifests [("id", "img1")] "alice" "alice", Write.PutJSON "img1" exBlob1 2]
    (Write.PutLayer "img1" "/data/uuid/bbb/layer" true 20) "disk full" (by decide) rfl⟩

end Wharf
